import Mathlib

/-!
# Verification of the anna-api ingestion pipeline

Shallow embedding of the core of the `iziplay/anna-api` repository:
the record upsert engine (`pkg/database/database.go`), the ISBN
conversions and search query construction (`pkg/isbn/isbn.go`,
`pkg/database/search.go`), the torrent catalog selection and shard
processing loop (`pkg/anna/download.go`), the sync orchestrator
(`pkg/sync/index.go`), the progress registry (`pkg/sync`, stats file)
and the on-demand download tracker (`pkg/anna/epub.go`).

Machine integers are modelled as `Int`/`Nat` with explicit range
constants where Go's 64-bit arithmetic matters.  Timestamps are
abstract `Nat` instants supplied by the caller (the code uses the
database clock; all rows written by one call share one instant).
Database errors, network transport and the BitTorrent engine are
external collaborators and are modelled as injected outcomes.
-/

namespace AnnaApi

/-! ## Input data model (`pkg/anna/models.go`)

`Record._score` (a float) and `search_only_fields` are never read by
any embedded operation and are omitted.  `strippedDescriptionBest` is
read by `UpsertRecordAndIdentifiers`. -/

structure FileUnifiedData where
  coverURLBest : String
  extensionBest : String
  titleBest : String
  authorBest : String
  publisherBest : String
  yearBest : String
  languageCodes : List String
  strippedDescriptionBest : String
  /-- `identifiers_unified`: Go `map[string][]string`; modelled as an
  association list (Go map iteration order is arbitrary; the claims
  proved below do not depend on it). -/
  identifiersUnified : List (String × List String)
  /-- `classifications_unified`, same shape. -/
  classificationsUnified : List (String × List String)
  deriving Repr, DecidableEq

structure RecordSource where
  id : String
  fileUnifiedData : FileUnifiedData
  deriving Repr, DecidableEq

structure AnnaRecord where
  /-- JSON `_id`. -/
  id : String
  source : RecordSource
  deriving Repr, DecidableEq

/-! ## Relational rows (`pkg/database/schema.go`)

`Model` contributes `created_at`/`updated_at`; time instants are
abstract naturals. -/

structure RecordRow where
  createdAt : Nat
  updatedAt : Nat
  id : String
  title : String
  publisher : String
  author : String
  coverURL : String
  year : Int
  languages : List String
  description : String
  deriving Repr, DecidableEq

/-- A `RecordIdentifier` or `RecordClassification` row: composite
primary key (record, type, value) plus audit timestamps. -/
structure ChildRow where
  createdAt : Nat
  updatedAt : Nat
  record : String
  type : String
  value : String
  deriving Repr, DecidableEq

structure DBState where
  records : List RecordRow
  identifiers : List ChildRow
  classifications : List ChildRow
  deriving Repr, DecidableEq

/-! ## Timestamp erasure ("modulo `updated_at`/`created_at`") -/

structure RecordRowData where
  id : String
  title : String
  publisher : String
  author : String
  coverURL : String
  year : Int
  languages : List String
  description : String
  deriving Repr, DecidableEq

structure ChildRowData where
  record : String
  type : String
  value : String
  deriving Repr, DecidableEq

def RecordRow.data (q : RecordRow) : RecordRowData :=
  ⟨q.id, q.title, q.publisher, q.author, q.coverURL, q.year, q.languages, q.description⟩

def ChildRow.data (c : ChildRow) : ChildRowData :=
  ⟨c.record, c.type, c.value⟩

structure DBShape where
  records : List RecordRowData
  identifiers : List ChildRowData
  classifications : List ChildRowData
  deriving Repr, DecidableEq

/-- Project a database state onto everything except the audit
timestamp columns. -/
def eraseTimestamps (db : DBState) : DBShape :=
  ⟨db.records.map RecordRow.data, db.identifiers.map ChildRow.data,
    db.classifications.map ChildRow.data⟩

/-! ## Helpers from `pkg/database/database.go` -/

/-- `sanitizeString`: `strings.ReplaceAll(s, "\x00", "")` — removes
every null byte (one `Char` each). -/
def sanitizeString (s : String) : String :=
  String.mk (s.toList.filter (fun c => c ≠ '\x00'))

def digitVal (c : Char) : Nat := c.toNat - '0'.toNat

def parseDigits (l : List Char) : Option Nat :=
  if l ≠ [] ∧ l.all Char.isDigit then
    some (l.foldl (fun a c => a * 10 + digitVal c) 0)
  else none

def int64Max : Int := 9223372036854775807
def int64Min : Int := -9223372036854775808

/-- `strconv.Atoi` with its error discarded, as in
`year, _ := strconv.Atoi(...)`: optional sign then decimal digits;
any syntax error yields 0; out-of-range input yields the clamped
64-bit value (Go returns the max-magnitude integer with `ErrRange`). -/
def goAtoi (s : String) : Int :=
  let l := s.toList
  let p : Int × List Char :=
    match l with
    | '+' :: rest => (1, rest)
    | '-' :: rest => (-1, rest)
    | _ => (1, l)
  match parseDigits p.2 with
  | none => 0
  | some n =>
    let v : Int := p.1 * n
    if v > int64Max then int64Max else if v < int64Min then int64Min else v

/-! ## The upsert engine (`UpsertRecordAndIdentifiers`)

`INSERT … ON CONFLICT (id) DO UPDATE` on the parent updates exactly
the columns title, publisher, author, cover_url, year, languages,
description, updated_at; `created_at` and `id` are untouched.  The
child batch upserts conflict on (record, type, value) and update only
`updated_at`.  A batch insert is modelled row by row in input order. -/

def upsertParent (now : Nat) (r : RecordRow) (rows : List RecordRow) : List RecordRow :=
  if rows.any (fun q => q.id = r.id) then
    rows.map (fun q =>
      if q.id = r.id then
        { q with title := r.title, publisher := r.publisher, author := r.author,
                 coverURL := r.coverURL, year := r.year, languages := r.languages,
                 description := r.description, updatedAt := now }
      else q)
  else rows ++ [r]

/-- Conflict test on the composite child primary key. -/
def childMatches (c q : ChildRow) : Bool :=
  q.record = c.record ∧ q.type = c.type ∧ q.value = c.value

def upsertChild (now : Nat) (c : ChildRow) (rows : List ChildRow) : List ChildRow :=
  if rows.any (childMatches c) then
    rows.map (fun q => if childMatches c q then { q with updatedAt := now } else q)
  else rows ++ [c]

def upsertChildren (now : Nat) (cs : List ChildRow) (rows : List ChildRow) : List ChildRow :=
  cs.foldl (fun acc c => upsertChild now c acc) rows

/-- The (record, type, value) key triples produced by flattening
`identifiers_unified` / `classifications_unified`, sanitized, in the
order of the two `for … range` loops of `UpsertRecordAndIdentifiers`. -/
def childKeys (recordId : String) (m : List (String × List String)) :
    List ChildRowData :=
  m.flatMap (fun tv =>
    tv.2.map (fun v => ⟨recordId, sanitizeString tv.1, sanitizeString v⟩))

/-- Flatten `identifiers_unified` / `classifications_unified` into
child rows stamped with the current instant. -/
def childRowsOf (now : Nat) (recordId : String) (m : List (String × List String)) :
    List ChildRow :=
  (childKeys recordId m).map (fun k => ⟨now, now, k.record, k.type, k.value⟩)

/-- The parent row built by `UpsertRecordAndIdentifiers` from an input
record (the `record := Record{…}` literal plus the conditional
`Description` assignment). -/
def recordRowOf (now : Nat) (rec : AnnaRecord) : RecordRow :=
  let fud := rec.source.fileUnifiedData
  { createdAt := now
    updatedAt := now
    id := sanitizeString rec.id
    title := sanitizeString fud.titleBest
    publisher := sanitizeString fud.publisherBest
    author := sanitizeString fud.authorBest
    coverURL := sanitizeString fud.coverURLBest
    year := goAtoi fud.yearBest
    languages := fud.languageCodes.map sanitizeString
    description :=
      if fud.strippedDescriptionBest ≠ "" then sanitizeString fud.strippedDescriptionBest
      else "" }

/-- `UpsertRecordAndIdentifiers(ctx, annaRecord)`.  A `nil` record or
a record whose unified `extension_best` is not `"epub"` returns
success without touching the database.  Database I/O errors are
external and out of scope; the function returns the post-state. -/
def upsertRecordAndIdentifiers (now : Nat) (annaRecord : Option AnnaRecord)
    (db : DBState) : DBState :=
  match annaRecord with
  | none => db
  | some rec =>
    if rec.source.fileUnifiedData.extensionBest ≠ "epub" then db
    else
      let rid := sanitizeString rec.id
      let record := recordRowOf now rec
      let db1 : DBState := { db with records := upsertParent now record db.records }
      let idRows := childRowsOf now rid rec.source.fileUnifiedData.identifiersUnified
      let db2 : DBState := { db1 with identifiers := upsertChildren now idRows db1.identifiers }
      let clRows := childRowsOf now rid rec.source.fileUnifiedData.classificationsUnified
      { db2 with classifications := upsertChildren now clRows db2.classifications }

/-- Unified `extension_best` of an optional input record, for stating
the persistence filter. -/
def extensionBestOf (annaRecord : Option AnnaRecord) : Option String :=
  annaRecord.map (fun rec => rec.source.fileUnifiedData.extensionBest)

/-- There is a record row for the given id. -/
def hasRecordRow (db : DBState) (i : String) : Bool :=
  db.records.any (fun q => q.id = i)

theorem upsert_noop_of_nonepub (now : Nat) (annaRecord : Option AnnaRecord)
    (db : DBState) (h : extensionBestOf annaRecord ≠ some "epub") :
    upsertRecordAndIdentifiers now annaRecord db = db := by
  cases annaRecord with
  | none => rfl
  | some rec =>
    have hne : rec.source.fileUnifiedData.extensionBest ≠ "epub" := by
      intro he
      exact h (by simp [extensionBestOf, he])
    simp [upsertRecordAndIdentifiers, hne]

/-- C1: if the input record is absent (`nil`) or its unified
`extension_best` differs from `"epub"`, `UpsertRecordAndIdentifiers`
succeeds as a no-op: the database state is unchanged, so in
particular no `Record` row, identifier row or classification row is
ever written for the record, and an id with no row before the call
has no row after it. -/
theorem c1_nonepub_never_persisted (now : Nat) (annaRecord : Option AnnaRecord)
    (db : DBState) (h : extensionBestOf annaRecord ≠ some "epub") :
    upsertRecordAndIdentifiers now annaRecord db = db ∧
      ∀ i : String, hasRecordRow db i = false →
        hasRecordRow (upsertRecordAndIdentifiers now annaRecord db) i = false := by
  have hmain := upsert_noop_of_nonepub now annaRecord db h
  exact ⟨hmain, fun i hi => by rw [hmain]; exact hi⟩

/-- Witness for C1: a concrete non-epub record is dropped. -/
def sampleFud : FileUnifiedData :=
  { coverURLBest := "http://c", extensionBest := "pdf", titleBest := "T",
    authorBest := "A", publisherBest := "P", yearBest := "1999",
    languageCodes := ["en"], strippedDescriptionBest := "d",
    identifiersUnified := [("isbn13", ["9780306406157"])],
    classificationsUnified := [("dewey", ["500"])] }

def sampleRecord : AnnaRecord :=
  { id := "md5:abc", source := { id := "md5:abc", fileUnifiedData := sampleFud } }

/-! ## Lemmas about the child upserts -/

theorem ChildRow.data_updatedAt (q : ChildRow) (n : Nat) :
    ({ q with updatedAt := n } : ChildRow).data = q.data := rfl

theorem childMatches_true_iff (c q : ChildRow) :
    childMatches c q = true ↔ q.data = c.data := by
  cases c; cases q
  simp [childMatches, ChildRow.data, ChildRowData.mk.injEq, and_assoc]

theorem childMatches_updatedAt (c q : ChildRow) (n : Nat) :
    childMatches c ({ q with updatedAt := n } : ChildRow) = childMatches c q := rfl

/-- A row with the given key triple exists. -/
def KeyPresent (k : ChildRowData) (rows : List ChildRow) : Prop :=
  ∃ q ∈ rows, q.data = k

theorem any_childMatches_iff (c : ChildRow) (rows : List ChildRow) :
    rows.any (childMatches c) = true ↔ KeyPresent c.data rows := by
  simp only [List.any_eq_true, KeyPresent, childMatches_true_iff]

theorem length_le_upsertChild (now : Nat) (c : ChildRow) (rows : List ChildRow) :
    rows.length ≤ (upsertChild now c rows).length := by
  unfold upsertChild
  split
  · simp
  · simp

theorem upsertChild_getElem (now : Nat) (c : ChildRow) (rows : List ChildRow)
    (i : Nat) (h : i < rows.length) :
    (upsertChild now c rows)[i]? =
      some (if childMatches c rows[i] then { rows[i] with updatedAt := now } else rows[i]) := by
  unfold upsertChild
  split
  case isTrue hany =>
    rw [List.getElem?_map, List.getElem?_eq_getElem h]
    rfl
  case isFalse hany =>
    rw [List.getElem?_append, if_pos h, List.getElem?_eq_getElem h]
    have hno : childMatches c rows[i] = false := by
      by_contra hc
      exact hany (List.any_eq_true.mpr ⟨rows[i], List.getElem_mem h, by
        revert hc
        cases childMatches c rows[i] <;> simp⟩)
    rw [hno]
    simp

theorem length_le_upsertChildren (now : Nat) (cs : List ChildRow) (rows : List ChildRow) :
    rows.length ≤ (upsertChildren now cs rows).length := by
  induction cs generalizing rows with
  | nil => simp [upsertChildren]
  | cons c cs ih =>
    calc rows.length ≤ (upsertChild now c rows).length := length_le_upsertChild now c rows
    _ ≤ (upsertChildren now cs (upsertChild now c rows)).length := ih _
    _ = (upsertChildren now (c :: cs) rows).length := rfl

theorem upsertChildren_getElem (now : Nat) (cs : List ChildRow) (rows : List ChildRow)
    (i : Nat) (h : i < rows.length) :
    (upsertChildren now cs rows)[i]? =
      some (if cs.any (fun c => childMatches c rows[i]) then
              { rows[i] with updatedAt := now }
            else rows[i]) := by
  induction cs generalizing rows with
  | nil =>
    simp [upsertChildren, List.getElem?_eq_getElem h]
  | cons c cs ih =>
    have h1 : i < (upsertChild now c rows).length :=
      Nat.lt_of_lt_of_le h (length_le_upsertChild now c rows)
    have hstep := upsertChild_getElem now c rows i h
    have hrow : (upsertChild now c rows)[i] =
        (if childMatches c rows[i] then { rows[i] with updatedAt := now } else rows[i]) := by
      have := List.getElem?_eq_getElem h1
      rw [this] at hstep
      exact Option.some.inj hstep
    have hrec : upsertChildren now (c :: cs) rows = upsertChildren now cs (upsertChild now c rows) := rfl
    rw [hrec, ih (upsertChild now c rows) h1, hrow]
    by_cases hm : childMatches c rows[i] = true
    · simp only [hm, if_true]
      have hsame : ∀ c' : ChildRow,
          childMatches c' ({ rows[i] with updatedAt := now } : ChildRow) = childMatches c' rows[i] :=
        fun c' => childMatches_updatedAt c' rows[i] now
      simp only [hsame, List.any_cons, hm, Bool.true_or, if_true]
      split <;> rfl
    · have hm' : childMatches c rows[i] = false := by
        revert hm
        cases childMatches c rows[i] <;> simp
      simp only [hm', if_false, List.any_cons, Bool.false_or, Bool.false_eq_true]

theorem KeyPresent_upsertChild (now : Nat) (k : ChildRowData) (c : ChildRow)
    (rows : List ChildRow) (h : KeyPresent k rows) :
    KeyPresent k (upsertChild now c rows) := by
  obtain ⟨q, hq, hd⟩ := h
  unfold upsertChild
  split
  · refine ⟨if childMatches c q then { q with updatedAt := now } else q, List.mem_map.mpr ⟨q, hq, rfl⟩, ?_⟩
    split <;> simpa [ChildRow.data_updatedAt]
  · exact ⟨q, List.mem_append_left _ hq, hd⟩

theorem KeyPresent_self_upsertChild (now : Nat) (c : ChildRow) (rows : List ChildRow) :
    KeyPresent c.data (upsertChild now c rows) := by
  unfold upsertChild
  split
  case isTrue hany =>
    obtain ⟨q, hq, hd⟩ := (any_childMatches_iff c rows).mp hany
    refine ⟨if childMatches c q then { q with updatedAt := now } else q,
      List.mem_map.mpr ⟨q, hq, rfl⟩, ?_⟩
    split <;> simpa [ChildRow.data_updatedAt]
  case isFalse hany =>
    exact ⟨c, List.mem_append_right _ (List.mem_singleton.mpr rfl), rfl⟩

theorem KeyPresent_upsertChildren (now : Nat) (k : ChildRowData) (cs : List ChildRow)
    (rows : List ChildRow) (h : KeyPresent k rows) :
    KeyPresent k (upsertChildren now cs rows) := by
  induction cs generalizing rows with
  | nil => exact h
  | cons c cs ih => exact ih _ (KeyPresent_upsertChild now k c rows h)

theorem KeyPresent_mem_upsertChildren (now : Nat) (c : ChildRow) (cs : List ChildRow)
    (rows : List ChildRow) (h : c ∈ cs) :
    KeyPresent c.data (upsertChildren now cs rows) := by
  induction cs generalizing rows with
  | nil => cases h
  | cons c0 cs ih =>
    cases List.mem_cons.mp h with
    | inl he =>
      subst he
      exact KeyPresent_upsertChildren now c.data cs _ (KeyPresent_self_upsertChild now c rows)
    | inr ht => exact ih _ ht

theorem upsertChild_data_of_present (now : Nat) (c : ChildRow) (rows : List ChildRow)
    (h : KeyPresent c.data rows) :
    (upsertChild now c rows).map ChildRow.data = rows.map ChildRow.data := by
  unfold upsertChild
  rw [if_pos ((any_childMatches_iff c rows).mpr h)]
  rw [List.map_map]
  refine List.map_congr_left (fun q _ => ?_)
  by_cases hm : childMatches c q = true
  · simp [hm, ChildRow.data_updatedAt]
  · simp only [Function.comp_apply]
    rw [if_neg]
    exact fun hc => hm hc

theorem upsertChildren_data_of_all_present (now : Nat) (cs : List ChildRow)
    (rows : List ChildRow) (h : ∀ c ∈ cs, KeyPresent c.data rows) :
    (upsertChildren now cs rows).map ChildRow.data = rows.map ChildRow.data := by
  induction cs generalizing rows with
  | nil => rfl
  | cons c cs ih =>
    have hc := h c (List.mem_cons_self c cs)
    have hstep := upsertChild_data_of_present now c rows hc
    have hrest : ∀ c' ∈ cs, KeyPresent c'.data (upsertChild now c rows) :=
      fun c' hc' => KeyPresent_upsertChild now c'.data c rows (h c' (List.mem_cons_of_mem c hc'))
    calc (upsertChildren now (c :: cs) rows).map ChildRow.data
        = (upsertChildren now cs (upsertChild now c rows)).map ChildRow.data := rfl
      _ = (upsertChild now c rows).map ChildRow.data := ih _ hrest
      _ = rows.map ChildRow.data := hstep

/-! ## Lemmas about the parent upsert -/

theorem RecordRow.data_update (q r : RecordRow) (now : Nat) :
    ({ q with title := r.title, publisher := r.publisher, author := r.author,
              coverURL := r.coverURL, year := r.year, languages := r.languages,
              description := r.description, updatedAt := now } : RecordRow).data =
      ⟨q.id, r.title, r.publisher, r.author, r.coverURL, r.year, r.languages, r.description⟩ := rfl

/-- A parent row with the given id exists. -/
def IdPresent (i : String) (rows : List RecordRow) : Prop :=
  ∃ q ∈ rows, q.id = i

theorem IdPresent_upsertParent (now : Nat) (i : String) (r : RecordRow)
    (rows : List RecordRow) (h : IdPresent i rows) :
    IdPresent i (upsertParent now r rows) := by
  obtain ⟨q, hq, hd⟩ := h
  unfold upsertParent
  split
  · refine ⟨_, List.mem_map.mpr ⟨q, hq, rfl⟩, ?_⟩
    split <;> simpa
  · exact ⟨q, List.mem_append_left _ hq, hd⟩

theorem IdPresent_self_upsertParent (now : Nat) (r : RecordRow) (rows : List RecordRow) :
    IdPresent r.id (upsertParent now r rows) := by
  unfold upsertParent
  split
  case isTrue hany =>
    obtain ⟨q, hq, hd⟩ := List.any_eq_true.mp hany
    refine ⟨_, List.mem_map.mpr ⟨q, hq, rfl⟩, ?_⟩
    split <;> simp_all
  case isFalse hany =>
    exact ⟨r, List.mem_append_right _ (List.mem_singleton.mpr rfl), rfl⟩

theorem upsertParent_saturates (now : Nat) (r : RecordRow) (rows : List RecordRow) :
    ∀ q ∈ upsertParent now r rows, q.id = r.id → q.data = r.data := by
  intro q hq hid
  unfold upsertParent at hq
  revert hq
  split
  · intro hq
    obtain ⟨q0, hq0, he⟩ := List.mem_map.mp hq
    by_cases h0 : q0.id = r.id
    · rw [if_pos (by exact_mod_cast h0)] at he
      subst he
      rw [RecordRow.data_update]
      cases r
      simp_all [RecordRow.data]
    · rw [if_neg (by exact_mod_cast h0)] at he
      subst he
      exact absurd hid h0
  · intro hq
    cases List.mem_append.mp hq with
    | inl hin =>
      exfalso
      rename_i hany
      exact hany (List.any_eq_true.mpr ⟨q, hin, decide_eq_true hid⟩)
    | inr hin =>
      rw [List.mem_singleton.mp hin]

theorem upsertParent_data_of_saturated (now : Nat) (r : RecordRow) (rows : List RecordRow)
    (hpres : IdPresent r.id rows)
    (hdata : ∀ q ∈ rows, q.id = r.id → q.data = r.data) :
    (upsertParent now r rows).map RecordRow.data = rows.map RecordRow.data := by
  unfold upsertParent
  rw [if_pos]
  · rw [List.map_map]
    refine List.map_congr_left (fun q hq => ?_)
    by_cases h0 : q.id = r.id
    · simp only [Function.comp_apply]
      rw [if_pos (by exact_mod_cast h0), RecordRow.data_update, hdata q hq h0, h0]
      cases r
      simp [RecordRow.data]
    · simp only [Function.comp_apply]
      rw [if_neg (by exact_mod_cast h0)]
  · obtain ⟨q, hq, hd⟩ := hpres
    exact List.any_eq_true.mpr ⟨q, hq, decide_eq_true hd⟩

/-! ## Idempotence of the full upsert (C2) -/

/-- The timestamp-free content of the parent row built from `rec` does
not depend on the write instant. -/
theorem recordRowOf_data (now : Nat) (rec : AnnaRecord) :
    (recordRowOf now rec).data = (recordRowOf 0 rec).data := rfl

theorem childRowsOf_data (now : Nat) (rid : String) (m : List (String × List String)) :
    (childRowsOf now rid m).map ChildRow.data = childKeys rid m := by
  unfold childRowsOf
  rw [List.map_map]
  refine List.map_congr_left (fun k _ => ?_) |>.trans (List.map_id _)
  rfl

/-- After one successful upsert of an epub record, the database is
saturated for it: the parent row is present with exactly the record's
scalar content, and every child key from the input is present. -/
def SaturatedFor (rec : AnnaRecord) (db : DBState) : Prop :=
  IdPresent (sanitizeString rec.id) db.records ∧
  (∀ q ∈ db.records, q.id = sanitizeString rec.id → q.data = (recordRowOf 0 rec).data) ∧
  (∀ k ∈ childKeys (sanitizeString rec.id) rec.source.fileUnifiedData.identifiersUnified,
      KeyPresent k db.identifiers) ∧
  (∀ k ∈ childKeys (sanitizeString rec.id) rec.source.fileUnifiedData.classificationsUnified,
      KeyPresent k db.classifications)

theorem upsert_epub_eq (now : Nat) (rec : AnnaRecord)
    (hext : rec.source.fileUnifiedData.extensionBest = "epub") (db : DBState) :
    upsertRecordAndIdentifiers now (some rec) db =
      { records := upsertParent now (recordRowOf now rec) db.records,
        identifiers := upsertChildren now
          (childRowsOf now (sanitizeString rec.id) rec.source.fileUnifiedData.identifiersUnified)
          db.identifiers,
        classifications := upsertChildren now
          (childRowsOf now (sanitizeString rec.id) rec.source.fileUnifiedData.classificationsUnified)
          db.classifications } := by
  simp [upsertRecordAndIdentifiers, hext]

theorem upsert_saturates (now : Nat) (rec : AnnaRecord)
    (hext : rec.source.fileUnifiedData.extensionBest = "epub") (db : DBState) :
    SaturatedFor rec (upsertRecordAndIdentifiers now (some rec) db) := by
  rw [upsert_epub_eq now rec hext db]
  refine ⟨?_, ?_, ?_, ?_⟩
  · exact IdPresent_self_upsertParent now (recordRowOf now rec) db.records
  · intro q hq hid
    exact (upsertParent_saturates now (recordRowOf now rec) db.records q hq hid).trans
      (recordRowOf_data now rec)
  · intro k hk
    have : (⟨now, now, k.record, k.type, k.value⟩ : ChildRow) ∈
        childRowsOf now (sanitizeString rec.id) rec.source.fileUnifiedData.identifiersUnified :=
      List.mem_map.mpr ⟨k, hk, rfl⟩
    have hp := KeyPresent_mem_upsertChildren now _ _ db.identifiers this
    simpa [ChildRow.data] using hp
  · intro k hk
    have : (⟨now, now, k.record, k.type, k.value⟩ : ChildRow) ∈
        childRowsOf now (sanitizeString rec.id) rec.source.fileUnifiedData.classificationsUnified :=
      List.mem_map.mpr ⟨k, hk, rfl⟩
    have hp := KeyPresent_mem_upsertChildren now _ _ db.classifications this
    simpa [ChildRow.data] using hp

theorem upsert_stable_of_saturated (now : Nat) (rec : AnnaRecord)
    (hext : rec.source.fileUnifiedData.extensionBest = "epub") (db : DBState)
    (hsat : SaturatedFor rec db) :
    eraseTimestamps (upsertRecordAndIdentifiers now (some rec) db) = eraseTimestamps db := by
  obtain ⟨hpres, hdata, hids, hcls⟩ := hsat
  rw [upsert_epub_eq now rec hext db]
  unfold eraseTimestamps
  simp only [DBShape.mk.injEq]
  refine ⟨?_, ?_, ?_⟩
  · refine upsertParent_data_of_saturated now (recordRowOf now rec) db.records ?_ ?_
    · exact hpres
    · intro q hq hid
      exact (hdata q hq hid).trans (recordRowOf_data now rec).symm
  · refine upsertChildren_data_of_all_present now _ db.identifiers ?_
    intro c hc
    obtain ⟨k, hk, he⟩ := List.mem_map.mp hc
    subst he
    simpa [ChildRow.data] using hids k hk
  · refine upsertChildren_data_of_all_present now _ db.classifications ?_
    intro c hc
    obtain ⟨k, hk, he⟩ := List.mem_map.mp hc
    subst he
    simpa [ChildRow.data] using hcls k hk

theorem foldl_upsert_erase_of_saturated (rec : AnnaRecord)
    (hext : rec.source.fileUnifiedData.extensionBest = "epub") :
    ∀ (nows : List Nat) (s : DBState), SaturatedFor rec s →
      eraseTimestamps (nows.foldl (fun t n => upsertRecordAndIdentifiers n (some rec) t) s) =
        eraseTimestamps s := by
  intro nows
  induction nows with
  | nil => intro s _; rfl
  | cons n ns ih =>
    intro s hs
    rw [List.foldl_cons]
    rw [ih _ (upsert_saturates n rec hext s)]
    exact upsert_stable_of_saturated n rec hext s hs

/-- C2: the upsert is idempotent.  For any input record and any
`N ≥ 1`, calling `UpsertRecordAndIdentifiers` `N` times with the
identical input (at arbitrary instants `now1, nows…`) leaves the
database, projected onto everything but the `created_at`/`updated_at`
audit columns, exactly as it was after the first call. -/
theorem c2_upsert_idempotent (annaRecord : Option AnnaRecord) (db : DBState)
    (now1 : Nat) (nows : List Nat) :
    eraseTimestamps (nows.foldl (fun s n => upsertRecordAndIdentifiers n annaRecord s)
        (upsertRecordAndIdentifiers now1 annaRecord db)) =
      eraseTimestamps (upsertRecordAndIdentifiers now1 annaRecord db) := by
  by_cases h : extensionBestOf annaRecord = some "epub"
  · obtain ⟨rec, hrec⟩ : ∃ rec, annaRecord = some rec := by
      cases annaRecord with
      | none => simp [extensionBestOf] at h
      | some rec => exact ⟨rec, rfl⟩
    subst hrec
    have hext : rec.source.fileUnifiedData.extensionBest = "epub" := by
      simpa [extensionBestOf] using h
    exact foldl_upsert_erase_of_saturated rec hext nows _
      (upsert_saturates now1 rec hext db)
  · have hnoop : ∀ (n : Nat) (s : DBState), upsertRecordAndIdentifiers n annaRecord s = s :=
      fun n s => upsert_noop_of_nonepub n annaRecord s h
    have hfold : ∀ (ns : List Nat) (s : DBState),
        ns.foldl (fun t n => upsertRecordAndIdentifiers n annaRecord t) s = s := by
      intro ns
      induction ns with
      | nil => intro s; rfl
      | cons n ns ih => intro s; rw [List.foldl_cons, hnoop n s]; exact ih s
    rw [hfold]

/-! ## The frame property of the upsert (C4) -/

/-- Identifier keys carried by the input, empty when the input is
dropped. -/
def identKeysOfInput (annaRecord : Option AnnaRecord) : List ChildRowData :=
  match annaRecord with
  | none => []
  | some rec =>
    if rec.source.fileUnifiedData.extensionBest = "epub" then
      childKeys (sanitizeString rec.id) rec.source.fileUnifiedData.identifiersUnified
    else []

/-- Classification keys carried by the input. -/
def classKeysOfInput (annaRecord : Option AnnaRecord) : List ChildRowData :=
  match annaRecord with
  | none => []
  | some rec =>
    if rec.source.fileUnifiedData.extensionBest = "epub" then
      childKeys (sanitizeString rec.id) rec.source.fileUnifiedData.classificationsUnified
    else []

/-- The row's key triple occurs among the given input keys. -/
def keyHit (ks : List ChildRowData) (q : ChildRow) : Bool :=
  ks.any (fun k => q.data = k)

theorem childMatches_stamp (now : Nat) (k : ChildRowData) (q : ChildRow) :
    childMatches ⟨now, now, k.record, k.type, k.value⟩ q = decide (q.data = k) := by
  cases k
  cases q
  simp [childMatches, ChildRow.data, ChildRowData.mk.injEq, and_assoc]

theorem any_childMatches_childRowsOf (now : Nat) (rid : String)
    (m : List (String × List String)) (q : ChildRow) :
    (childRowsOf now rid m).any (fun c => childMatches c q) =
      keyHit (childKeys rid m) q := by
  unfold childRowsOf keyHit
  generalize childKeys rid m = l
  induction l with
  | nil => rfl
  | cons k ks ih => simp only [List.map_cons, List.any_cons, ih, childMatches_stamp]

/-- C4: upserting a record never deletes child rows.  Every existing
`RecordIdentifier`/`RecordClassification` row survives any call at
its position; a surviving row whose (record, type, value) key also
occurs in the new input changes only its `updated_at` (to the call's
instant), and one whose key does not occur is bitwise unchanged.  On
the parent, scalar fields are overwritten last-writer-wins: after
upserting an epub record, every parent row carrying its id holds
exactly the new scalar content. -/
theorem c4_upsert_frame (now : Nat) (annaRecord : Option AnnaRecord) (db : DBState) :
    (∀ (i : Nat) (h : i < db.identifiers.length),
      (upsertRecordAndIdentifiers now annaRecord db).identifiers[i]? =
        some (if keyHit (identKeysOfInput annaRecord) db.identifiers[i] then
                { db.identifiers[i] with updatedAt := now }
              else db.identifiers[i])) ∧
    (∀ (i : Nat) (h : i < db.classifications.length),
      (upsertRecordAndIdentifiers now annaRecord db).classifications[i]? =
        some (if keyHit (classKeysOfInput annaRecord) db.classifications[i] then
                { db.classifications[i] with updatedAt := now }
              else db.classifications[i])) ∧
    (∀ rec, annaRecord = some rec →
      rec.source.fileUnifiedData.extensionBest = "epub" →
      ∀ q ∈ (upsertRecordAndIdentifiers now annaRecord db).records,
        q.id = sanitizeString rec.id → q.data = (recordRowOf 0 rec).data) := by
  by_cases hep : extensionBestOf annaRecord = some "epub"
  · obtain ⟨rec, hrec⟩ : ∃ rec, annaRecord = some rec := by
      cases annaRecord with
      | none => simp [extensionBestOf] at hep
      | some rec => exact ⟨rec, rfl⟩
    subst hrec
    have hext : rec.source.fileUnifiedData.extensionBest = "epub" := by
      simpa [extensionBestOf] using hep
    rw [upsert_epub_eq now rec hext db]
    refine ⟨?_, ?_, ?_⟩
    · intro i h
      rw [upsertChildren_getElem now _ db.identifiers i h]
      rw [any_childMatches_childRowsOf now _ _ db.identifiers[i]]
      simp [identKeysOfInput, hext]
    · intro i h
      rw [upsertChildren_getElem now _ db.classifications i h]
      rw [any_childMatches_childRowsOf now _ _ db.classifications[i]]
      simp [classKeysOfInput, hext]
    · intro rec2 hr hx q hq hid
      obtain rfl := Option.some.inj hr
      exact (upsertParent_saturates now _ db.records q hq hid).trans (recordRowOf_data now _)
  · have hmain := upsert_noop_of_nonepub now annaRecord db hep
    have hidk : identKeysOfInput annaRecord = [] := by
      cases annaRecord with
      | none => rfl
      | some rec =>
        have hne : rec.source.fileUnifiedData.extensionBest ≠ "epub" := by
          intro he
          exact hep (by simp [extensionBestOf, he])
        simp [identKeysOfInput, hne]
    have hclk : classKeysOfInput annaRecord = [] := by
      cases annaRecord with
      | none => rfl
      | some rec =>
        have hne : rec.source.fileUnifiedData.extensionBest ≠ "epub" := by
          intro he
          exact hep (by simp [extensionBestOf, he])
        simp [classKeysOfInput, hne]
    refine ⟨?_, ?_, ?_⟩
    · intro i h
      rw [hmain, hidk]
      simp [keyHit, List.getElem?_eq_getElem h]
    · intro i h
      rw [hmain, hclk]
      simp [keyHit, List.getElem?_eq_getElem h]
    · intro rec hr hx
      exfalso
      exact hep (by simp [extensionBestOf, hr, hx])

/-- A concrete epub record and database used by witnesses. -/
def wEpubFud : FileUnifiedData :=
  { coverURLBest := "c", extensionBest := "epub", titleBest := "Title",
    authorBest := "Auth", publisherBest := "Pub", yearBest := "2001",
    languageCodes := ["en"], strippedDescriptionBest := "",
    identifiersUnified := [("isbn13", ["9780306406157"])],
    classificationsUnified := [("dewey", ["500"])] }

def wEpubRecord : AnnaRecord :=
  { id := "md5:x", source := { id := "md5:x", fileUnifiedData := wEpubFud } }

def wDb : DBState :=
  { records := [],
    identifiers := [⟨1, 1, "md5:x", "isbn13", "9780306406157"⟩,
                    ⟨1, 1, "other", "doi", "d1"⟩],
    classifications := [⟨2, 2, "md5:x", "dewey", "500"⟩] }

/-- Witness for C4: on a concrete call the matched identifier row
keeps its content and `created_at` and gets `updated_at := 7`, the
unmatched row is bitwise unchanged, the matched classification row is
refreshed, and the freshly written parent row carries the record's
scalar content. -/
theorem c4_upsert_frame_witness :
    (upsertRecordAndIdentifiers 7 (some wEpubRecord) wDb).identifiers[0]? =
      some ⟨1, 7, "md5:x", "isbn13", "9780306406157"⟩ ∧
    (upsertRecordAndIdentifiers 7 (some wEpubRecord) wDb).identifiers[1]? =
      some ⟨1, 1, "other", "doi", "d1"⟩ ∧
    (upsertRecordAndIdentifiers 7 (some wEpubRecord) wDb).classifications[0]? =
      some ⟨2, 7, "md5:x", "dewey", "500"⟩ ∧
    (recordRowOf 7 wEpubRecord).data = (recordRowOf 0 wEpubRecord).data := by
  have h := c4_upsert_frame 7 (some wEpubRecord) wDb
  refine ⟨?_, ?_, ?_, ?_⟩
  · exact (h.1 0 (by decide)).trans (by decide)
  · exact (h.1 1 (by decide)).trans (by decide)
  · exact (h.2.1 0 (by decide)).trans (by decide)
  · exact h.2.2 wEpubRecord rfl (by decide) (recordRowOf 7 wEpubRecord) (by decide) (by decide)

theorem c1_nonepub_never_persisted_witness :
    upsertRecordAndIdentifiers 5 (some sampleRecord) ⟨[], [], []⟩ = ⟨[], [], []⟩ ∧
      ∀ i : String, hasRecordRow ⟨[], [], []⟩ i = false →
        hasRecordRow (upsertRecordAndIdentifiers 5 (some sampleRecord) ⟨[], [], []⟩) i = false :=
  c1_nonepub_never_persisted 5 (some sampleRecord) ⟨[], [], []⟩ (by decide)

/-! ## ISBN conversions (`pkg/isbn/isbn.go`)

Go's `len` counts UTF-8 bytes and `isbn10[:9]` / `isbn13[3:12]` are
byte slices.  The embeddings below check the byte length and then
work on chars: whenever the sliced bytes are all ASCII digits the two
views coincide, and whenever they are not the Go loop hits a
non-digit (or invalid) rune, `strconv.Atoi` fails and the function
returns `""`, exactly as the `all Char.isDigit` guard below does. -/

/-- Go `len(s)`: the UTF-8 byte length. -/
def goLen (s : String) : Nat := (s.toList.map Char.utf8Size).sum

/-- The alternating 1/3 weighted digit sum of `To13`; the parity flag
mirrors `i%2 == 0`, which toggles per (ASCII) byte. -/
def weightedSum13 (even : Bool) : List Char → Nat
  | [] => 0
  | c :: rest => (if even then digitVal c else 3 * digitVal c) + weightedSum13 (!even) rest

/-- The descending 10,9,…  weighted digit sum of `To10`; the weight
mirrors `10 - i`. -/
def weightedSum10 (w : Nat) : List Char → Nat
  | [] => 0
  | c :: rest => digitVal c * w + weightedSum10 (w - 1) rest

def digitCharOf (d : Nat) : Char := Char.ofNat ('0'.toNat + d)

/-- The base of `To13`: `"978" + isbn10[:9]`. -/
def base13 (isbn10 : String) : List Char := '9' :: '7' :: '8' :: isbn10.toList.take 9

/-- The base of `To10`: `isbn13[3:12]`. -/
def base10 (isbn13 : String) : List Char := (isbn13.toList.drop 3).take 9

/-- `To13`: prepend 978 to the first nine characters and append the
EAN-13 check digit; `""` whenever the input is not byte length 10
with nine leading digits. -/
def To13 (isbn10 : String) : String :=
  if goLen isbn10 = 10 then
    if (base13 isbn10).all Char.isDigit then
      String.mk (base13 isbn10 ++
        [digitCharOf ((10 - weightedSum13 true (base13 isbn10) % 10) % 10)])
    else ""
  else ""

/-- `To10`: strip the 978 prefix and recompute the ISBN-10 check
digit (`'X'` for the check value 10); `""` whenever the input is not
a 978-prefixed byte length 13 string with digits in positions 3–11. -/
def To10 (isbn13 : String) : String :=
  if goLen isbn13 = 13 ∧ ['9', '7', '8'].isPrefixOf isbn13.toList then
    if (base10 isbn13).all Char.isDigit then
      if (11 - weightedSum10 10 (base10 isbn13) % 11) % 11 = 10 then
        String.mk (base10 isbn13 ++ ['X'])
      else
        String.mk (base10 isbn13 ++
          [digitCharOf ((11 - weightedSum10 10 (base10 isbn13) % 11) % 11)])
    else ""
  else ""

/-! ## Search query construction (`SearchByISBN`, search.go lines 29–39) -/

/-- `strings.TrimSpace` (Unicode white space at both ends). -/
def trimSpace (s : String) : String :=
  String.mk (((s.toList.dropWhile Char.isWhitespace).reverse.dropWhile
    Char.isWhitespace).reverse)

/-- The set of ISBN strings `SearchByISBN` queries for, built from a
length-validated input exactly as in the `isbns := []string{…}`
block: a 10-byte input adds its `To13` form when nonempty, a
978-prefixed 13-byte input adds its `To10` form when nonempty. -/
def searchIsbns (code : String) : List String :=
  if goLen code = 10 then
    if To13 code ≠ "" then [code, To13 code] else [code]
  else if goLen code = 13 ∧ ['9', '7', '8'].isPrefixOf code.toList then
    if To10 code ≠ "" then [code, To10 code] else [code]
  else [code]

/-- `SearchByISBN` up to the `identifiers` query: trim, validate the
length, build the query set. -/
def searchByISBNQueries (raw : String) : Except String (List String) :=
  let code := trimSpace raw
  if goLen code ≠ 10 ∧ goLen code ≠ 13 then .error "invalid ISBN length"
  else .ok (searchIsbns code)

/-- The `RecordIdentifier` rows returned by the
`type IN ('isbn10','isbn13') AND value IN isbns` filter. -/
def isbnLookupRows (rows : List ChildRow) (isbns : List String) : List ChildRow :=
  rows.filter (fun q => (q.type = "isbn10" ∨ q.type = "isbn13") ∧ isbns.contains q.value)

/-! ## Valid ISBN-10 strings and the conversion round trip (C9) -/

/-- The ISBN-10 check character computed from nine digit values: the
same `(11 - sum%11) % 11` formula as `To10`, with `'X'` for 10. -/
def isbn10CheckChar (ds : List Nat) : Char :=
  if (11 - weightedSum10 10 (ds.map digitCharOf) % 11) % 11 = 10 then 'X'
  else digitCharOf ((11 - weightedSum10 10 (ds.map digitCharOf) % 11) % 11)

/-- The valid ISBN-10 made of nine digits and their correct check
character. -/
def isbn10String (ds : List Nat) : String :=
  String.mk (ds.map digitCharOf ++ [isbn10CheckChar ds])

theorem utf8Size_digitCharOf (d : Nat) (h : d < 10) : (digitCharOf d).utf8Size = 1 := by
  interval_cases d <;> decide

theorem isDigit_digitCharOf (d : Nat) (h : d < 10) : (digitCharOf d).isDigit = true := by
  interval_cases d <;> decide

theorem utf8Size_isbn10CheckChar (ds : List Nat) : (isbn10CheckChar ds).utf8Size = 1 := by
  unfold isbn10CheckChar
  split
  · decide
  case isFalse h =>
    have hlt : (11 - weightedSum10 10 (ds.map digitCharOf) % 11) % 11 < 11 :=
      Nat.mod_lt _ (by decide)
    exact utf8Size_digitCharOf _ (by omega)

theorem goLen_mk_allAscii (l : List Char) (h : ∀ c ∈ l, c.utf8Size = 1) :
    goLen (String.mk l) = l.length := by
  induction l with
  | nil => rfl
  | cons c cs ih =>
    show ((c :: cs).map Char.utf8Size).sum = cs.length + 1
    rw [List.map_cons, List.sum_cons, h c (List.mem_cons_self c cs)]
    have := ih (fun x hx => h x (List.mem_cons_of_mem c hx))
    unfold goLen at this
    rw [show (String.mk cs).toList = cs from rfl] at this
    omega

theorem goLen_isbn10String (ds : List Nat) (hlen : ds.length = 9)
    (hd : ∀ d ∈ ds, d < 10) : goLen (isbn10String ds) = 10 := by
  unfold isbn10String
  rw [goLen_mk_allAscii]
  · simp [hlen]
  · intro c hc
    rcases List.mem_append.mp hc with hm | hm
    · obtain ⟨d, hdm, rfl⟩ := List.mem_map.mp hm
      exact utf8Size_digitCharOf d (hd d hdm)
    · rw [List.mem_singleton.mp hm]
      exact utf8Size_isbn10CheckChar ds

theorem base13_isbn10String (ds : List Nat) (hlen : ds.length = 9) :
    base13 (isbn10String ds) = '9' :: '7' :: '8' :: ds.map digitCharOf := by
  unfold base13 isbn10String
  rw [show (String.mk (ds.map digitCharOf ++ [isbn10CheckChar ds])).toList =
        ds.map digitCharOf ++ [isbn10CheckChar ds] from rfl]
  rw [show (9 : Nat) = (ds.map digitCharOf).length by simp [hlen], List.take_left]

theorem all_isDigit_map_digitCharOf (ds : List Nat) (hd : ∀ d ∈ ds, d < 10) :
    (ds.map digitCharOf).all Char.isDigit = true := by
  rw [List.all_eq_true]
  intro c hc
  obtain ⟨d, hdm, rfl⟩ := List.mem_map.mp hc
  exact isDigit_digitCharOf d (hd d hdm)

/-- Evaluation of `To13` on a valid ISBN-10: 978, the nine digits,
then the EAN check digit. -/
theorem to13_isbn10String (ds : List Nat) (hlen : ds.length = 9)
    (hd : ∀ d ∈ ds, d < 10) :
    To13 (isbn10String ds) =
      String.mk (('9' :: '7' :: '8' :: ds.map digitCharOf) ++
        [digitCharOf ((10 -
          weightedSum13 true ('9' :: '7' :: '8' :: ds.map digitCharOf) % 10) % 10)]) := by
  unfold To13
  rw [if_pos (goLen_isbn10String ds hlen hd), base13_isbn10String ds hlen]
  rw [if_pos]
  simp only [List.all_cons, Bool.and_eq_true]
  exact ⟨by decide, by decide, by decide, all_isDigit_map_digitCharOf ds hd⟩

theorem goLen_to13_isbn10String (ds : List Nat) (hlen : ds.length = 9)
    (hd : ∀ d ∈ ds, d < 10) : goLen (To13 (isbn10String ds)) = 13 := by
  rw [to13_isbn10String ds hlen hd, goLen_mk_allAscii]
  · simp [hlen]
  · intro c hc
    simp only [List.cons_append, List.mem_cons, List.mem_append, List.mem_singleton] at hc
    rcases hc with rfl | rfl | rfl | hm
    · decide
    · decide
    · decide
    rcases hm with hm | hm2
    · obtain ⟨d, hdm, rfl⟩ := List.mem_map.mp hm
      exact utf8Size_digitCharOf d (hd d hdm)
    · rcases hm2 with rfl | h0
      · exact utf8Size_digitCharOf _ (Nat.mod_lt _ (by decide))
      · cases h0

theorem to13_toList (ds : List Nat) (hlen : ds.length = 9)
    (hd : ∀ d ∈ ds, d < 10) :
    (To13 (isbn10String ds)).toList =
      '9' :: '7' :: '8' :: (ds.map digitCharOf ++
        [digitCharOf ((10 -
          weightedSum13 true ('9' :: '7' :: '8' :: ds.map digitCharOf) % 10) % 10)]) := by
  rw [to13_isbn10String ds hlen hd]
  rfl

theorem to13_isPrefix978 (ds : List Nat) (hlen : ds.length = 9)
    (hd : ∀ d ∈ ds, d < 10) :
    (['9', '7', '8'] : List Char).isPrefixOf (To13 (isbn10String ds)).toList = true := by
  rw [to13_toList ds hlen hd]
  simp [List.isPrefixOf]

theorem to13_ne_empty (ds : List Nat) (hlen : ds.length = 9)
    (hd : ∀ d ∈ ds, d < 10) : To13 (isbn10String ds) ≠ "" := by
  intro h
  have := congrArg String.toList h
  rw [to13_toList ds hlen hd] at this
  simp at this

theorem isbn10String_ne_empty (ds : List Nat) : isbn10String ds ≠ "" := by
  intro h
  have := congrArg String.toList h
  unfold isbn10String at this
  simp at this

theorem to10_to13_isbn10String (ds : List Nat) (hlen : ds.length = 9)
    (hd : ∀ d ∈ ds, d < 10) :
    To10 (To13 (isbn10String ds)) = isbn10String ds := by
  have hlen13 := goLen_to13_isbn10String ds hlen hd
  have htl := to13_toList ds hlen hd
  have hpre := to13_isPrefix978 ds hlen hd
  have hbase : base10 (To13 (isbn10String ds)) = ds.map digitCharOf := by
    unfold base10
    rw [htl]
    show ((ds.map digitCharOf ++ [_]).take 9) = ds.map digitCharOf
    rw [show (9 : Nat) = (ds.map digitCharOf).length by simp [hlen], List.take_left]
  unfold To10
  rw [if_pos ⟨hlen13, hpre⟩, hbase, if_pos (all_isDigit_map_digitCharOf ds hd)]
  by_cases hc : (11 - weightedSum10 10 (ds.map digitCharOf) % 11) % 11 = 10
  · rw [if_pos hc]
    unfold isbn10String isbn10CheckChar
    rw [if_pos hc]
  · rw [if_neg hc]
    unfold isbn10String isbn10CheckChar
    rw [if_neg hc]

theorem searchIsbns_isbn10 (ds : List Nat) (hlen : ds.length = 9)
    (hd : ∀ d ∈ ds, d < 10) :
    searchIsbns (isbn10String ds) = [isbn10String ds, To13 (isbn10String ds)] := by
  unfold searchIsbns
  rw [if_pos (goLen_isbn10String ds hlen hd), if_pos (to13_ne_empty ds hlen hd)]

theorem searchIsbns_to13 (ds : List Nat) (hlen : ds.length = 9)
    (hd : ∀ d ∈ ds, d < 10) :
    searchIsbns (To13 (isbn10String ds)) =
      [To13 (isbn10String ds), isbn10String ds] := by
  unfold searchIsbns
  rw [if_neg (by rw [goLen_to13_isbn10String ds hlen hd]; omega)]
  rw [if_pos ⟨goLen_to13_isbn10String ds hlen hd, to13_isPrefix978 ds hlen hd⟩]
  rw [to10_to13_isbn10String ds hlen hd]
  rw [if_pos (isbn10String_ne_empty ds)]

theorem isbnLookup_finds (rows : List ChildRow) (q : ChildRow) (isbns : List String)
    (hq : q ∈ rows) (ht : q.type = "isbn10" ∨ q.type = "isbn13")
    (hv : q.value ∈ isbns) :
    q.record ∈ (isbnLookupRows rows isbns).map ChildRow.record := by
  refine List.mem_map.mpr ⟨q, ?_, rfl⟩
  refine List.mem_filter.mpr ⟨hq, ?_⟩
  refine decide_eq_true ?_
  exact ⟨ht, List.elem_eq_true_of_mem hv⟩

/-- C9 as stated is false: `"0306406150"` has 10 characters whose
first nine are digits, yet `To10 (To13 "0306406150")` recomputes the
check digit and yields `"0306406152"`, not the input. -/
theorem c9_isbn_roundtrip_counterexample :
    goLen "0306406150" = 10 ∧
    (("0306406150".toList.take 9).all Char.isDigit) = true ∧
    To10 (To13 "0306406150") = "0306406152" ∧
    To10 (To13 "0306406150") ≠ "0306406150" := by
  refine ⟨by decide, by decide, by decide, by decide⟩

/-- C9 amended: the round trip holds for every well-formed ISBN-10
whose tenth character is the correct check digit (nine digits plus
the recomputed check character) — `To13` discards the tenth character
and `To10` recomputes it, so inputs with a wrong check digit do not
round-trip.  The concrete conversions of the claim hold, and
`SearchByISBN` queries both forms: a valid 10-byte input also queries
its `To13` form, the corresponding 978-prefixed 13-byte input also
queries its `To10` form, so an ISBN-10 query finds a record stored
only under the matching ISBN-13 identifier and vice versa. -/
theorem c9_isbn_conversions_amended :
    (∀ ds : List Nat, ds.length = 9 → (∀ d ∈ ds, d < 10) →
      To10 (To13 (isbn10String ds)) = isbn10String ds) ∧
    To13 "0306406152" = "9780306406157" ∧
    To10 "9780306406157" = "0306406152" ∧
    (∀ ds : List Nat, ds.length = 9 → (∀ d ∈ ds, d < 10) →
      searchIsbns (isbn10String ds) = [isbn10String ds, To13 (isbn10String ds)] ∧
      searchIsbns (To13 (isbn10String ds)) = [To13 (isbn10String ds), isbn10String ds]) ∧
    (∀ (rows : List ChildRow) (r : String) (c u : Nat) (ds : List Nat),
      ds.length = 9 → (∀ d ∈ ds, d < 10) →
      (⟨c, u, r, "isbn13", To13 (isbn10String ds)⟩ : ChildRow) ∈ rows →
      r ∈ (isbnLookupRows rows (searchIsbns (isbn10String ds))).map ChildRow.record) ∧
    (∀ (rows : List ChildRow) (r : String) (c u : Nat) (ds : List Nat),
      ds.length = 9 → (∀ d ∈ ds, d < 10) →
      (⟨c, u, r, "isbn10", isbn10String ds⟩ : ChildRow) ∈ rows →
      r ∈ (isbnLookupRows rows (searchIsbns (To13 (isbn10String ds)))).map ChildRow.record) := by
  refine ⟨to10_to13_isbn10String, by decide, by decide, ?_, ?_, ?_⟩
  · intro ds h1 h2
    exact ⟨searchIsbns_isbn10 ds h1 h2, searchIsbns_to13 ds h1 h2⟩
  · intro rows r c u ds h1 h2 hm
    refine isbnLookup_finds rows _ _ hm (Or.inr rfl) ?_
    rw [searchIsbns_isbn10 ds h1 h2]
    simp
  · intro rows r c u ds h1 h2 hm
    refine isbnLookup_finds rows _ _ hm (Or.inl rfl) ?_
    rw [searchIsbns_to13 ds h1 h2]
    simp

/-- The nine digits of the claim's concrete ISBN. -/
def wds : List Nat := [0, 3, 0, 6, 4, 0, 6, 1, 5]

/-- Witness for C9 (amended): at the concrete ISBN of the claim the
round trip, the query set and the cross-form lookup all evaluate. -/
theorem c9_isbn_conversions_amended_witness :
    To10 (To13 "0306406152") = "0306406152" ∧
    searchIsbns "0306406152" = ["0306406152", "9780306406157"] ∧
    "rec1" ∈ (isbnLookupRows [⟨0, 0, "rec1", "isbn13", "9780306406157"⟩]
        (searchIsbns "0306406152")).map ChildRow.record := by
  have hx : isbn10String wds = "0306406152" := by decide
  have h13 : To13 (isbn10String wds) = "9780306406157" := by decide
  refine ⟨?_, ?_, ?_⟩
  · have h := c9_isbn_conversions_amended.1 wds (by decide) (by decide)
    rw [hx] at h
    exact h
  · have h := (c9_isbn_conversions_amended.2.2.2.1 wds (by decide) (by decide)).1
    rw [hx] at h
    rw [show To13 "0306406152" = "9780306406157" by decide] at h
    exact h
  · have h := c9_isbn_conversions_amended.2.2.2.2.1
      [⟨0, 0, "rec1", "isbn13", "9780306406157"⟩] "rec1" 0 0 wds (by decide) (by decide)
      (by rw [h13]; exact List.mem_singleton.mpr rfl)
    rw [hx] at h
    exact h

/-! ## Torrent catalog selection (`GetLastMetadataTorrent`,
`pkg/anna/download.go`)

Go's `>` on strings is byte-lexicographic; on UTF-8 data that is the
same order as lexicographic comparison of the char lists, which is
used here (`String.data` comparison) because it reduces in the
kernel. -/

structure TorrentsResponse where
  displayName : String
  url : String
  btih : String
  magnetLink : String
  topLevelGroupName : String
  groupName : String
  obsolete : Bool
  addedToTorrentsListAt : String
  deriving Repr, DecidableEq

/-- Go `a < b` on strings (byte order = char-list lexicographic order
on UTF-8). -/
def strLt (a b : String) : Prop := a.data < b.data

instance (a b : String) : Decidable (strLt a b) := by
  unfold strLt
  infer_instance

/-- The filter of the `if` inside `GetLastMetadataTorrent`'s loop. -/
def isMetadataTorrent (t : TorrentsResponse) : Bool :=
  t.groupName = "aa_derived_mirror_metadata" ∧
    t.topLevelGroupName = "other_aa" ∧ !t.obsolete

/-- The loop of `GetLastMetadataTorrent`: state is
(`latestTorrent`, `latestDate`). -/
def getLastMetadataTorrentAux :
    List TorrentsResponse → Option TorrentsResponse → String →
      Option TorrentsResponse × String
  | [], lt, ld => (lt, ld)
  | t :: rest, lt, ld =>
    if isMetadataTorrent t = true ∧ strLt ld t.addedToTorrentsListAt then
      getLastMetadataTorrentAux rest (some t) t.addedToTorrentsListAt
    else
      getLastMetadataTorrentAux rest lt ld

/-- `GetLastMetadataTorrent`: fold the catalog with
`latestTorrent = nil`, `latestDate = ""`. -/
def getLastMetadataTorrent (ts : List TorrentsResponse) : Option TorrentsResponse :=
  (getLastMetadataTorrentAux ts none "").1

theorem glmtAux_spec (l : List TorrentsResponse) (lt : Option TorrentsResponse)
    (ld : String) :
    ((getLastMetadataTorrentAux l lt ld).1 = lt ∧
        (getLastMetadataTorrentAux l lt ld).2 = ld ∨
      ∃ t, (getLastMetadataTorrentAux l lt ld).1 = some t ∧
        (getLastMetadataTorrentAux l lt ld).2 = t.addedToTorrentsListAt ∧
        t ∈ l ∧ isMetadataTorrent t = true ∧ ld.data < t.addedToTorrentsListAt.data) ∧
    (∀ u ∈ l, isMetadataTorrent u = true →
      u.addedToTorrentsListAt.data ≤ (getLastMetadataTorrentAux l lt ld).2.data) ∧
    ld.data ≤ (getLastMetadataTorrentAux l lt ld).2.data := by
  induction l generalizing lt ld with
  | nil =>
    exact ⟨Or.inl ⟨rfl, rfl⟩, fun u hu => absurd hu (List.not_mem_nil u), le_refl _⟩
  | cons t rest ih =>
    by_cases hc : isMetadataTorrent t = true ∧ strLt ld t.addedToTorrentsListAt
    · have hstep : getLastMetadataTorrentAux (t :: rest) lt ld =
          getLastMetadataTorrentAux rest (some t) t.addedToTorrentsListAt := by
        simp only [getLastMetadataTorrentAux]
        rw [if_pos hc]
      obtain ⟨ihd, ihall, ihle⟩ := ih (some t) t.addedToTorrentsListAt
      rw [hstep]
      refine ⟨?_, ?_, ?_⟩
      · rcases ihd with ⟨h1, h2⟩ | ⟨t', h1, h2, hmem, hmet, hlt⟩
        · exact Or.inr ⟨t, h1, h2, List.mem_cons_self t rest, hc.1, hc.2⟩
        · exact Or.inr ⟨t', h1, h2, List.mem_cons_of_mem t hmem, hmet,
            lt_trans hc.2 hlt⟩
      · intro u hu hmu
        rcases List.mem_cons.mp hu with rfl | hu'
        · exact le_trans ihle rfl.le
        · exact ihall u hu' hmu
      · exact le_trans (le_of_lt hc.2) ihle
    · have hstep : getLastMetadataTorrentAux (t :: rest) lt ld =
          getLastMetadataTorrentAux rest lt ld := by
        simp only [getLastMetadataTorrentAux]
        rw [if_neg hc]
      obtain ⟨ihd, ihall, ihle⟩ := ih lt ld
      rw [hstep]
      refine ⟨?_, ?_, ?_⟩
      · rcases ihd with ⟨h1, h2⟩ | ⟨t', h1, h2, hmem, hmet, hlt⟩
        · exact Or.inl ⟨h1, h2⟩
        · exact Or.inr ⟨t', h1, h2, List.mem_cons_of_mem t hmem, hmet, hlt⟩
      · intro u hu hmu
        rcases List.mem_cons.mp hu with rfl | hu'
        · have hnlt : ¬ strLt ld u.addedToTorrentsListAt := fun hl => hc ⟨hmu, hl⟩
          exact le_trans (not_lt.mp hnlt) ihle
        · exact ihall u hu' hmu
      · exact ihle

/-- A catalog entry passing the metadata filter with an empty
added-at string. -/
def emptyDateTorrent : TorrentsResponse :=
  { displayName := "aa-meta", url := "", btih := "b", magnetLink := "m",
    topLevelGroupName := "other_aa", groupName := "aa_derived_mirror_metadata",
    obsolete := false, addedToTorrentsListAt := "" }

/-- C6 as stated is false at the boundary: a catalog whose only entry
satisfies the filter but has an empty added-at string makes
`GetLastMetadataTorrent` return `nil`, because the running
`latestDate` starts at `""` and the comparison is strict — yet the
claim requires the (unique, hence lexicographically greatest)
matching entry to be returned. -/
theorem c6_get_last_metadata_counterexample :
    isMetadataTorrent emptyDateTorrent = true ∧
    getLastMetadataTorrent [emptyDateTorrent] = none := by
  exact ⟨by decide, by decide⟩

/-- C6 amended: `GetLastMetadataTorrent` returns an entry iff some
entry passes the filter with a nonempty added-at string; a returned
entry passes the filter, has a nonempty added-at string that is
byte-lexicographically greatest among all filtered entries; `nil` is
returned exactly when every filtered entry (if any) has the empty
added-at string. -/
theorem c6_get_last_metadata_amended (ts : List TorrentsResponse) :
    (∀ t, getLastMetadataTorrent ts = some t →
      t ∈ ts ∧ isMetadataTorrent t = true ∧ t.addedToTorrentsListAt ≠ "" ∧
      ∀ u ∈ ts, isMetadataTorrent u = true →
        u.addedToTorrentsListAt.data ≤ t.addedToTorrentsListAt.data) ∧
    (getLastMetadataTorrent ts = none →
      ∀ u ∈ ts, isMetadataTorrent u = true → u.addedToTorrentsListAt = "") := by
  obtain ⟨hd, hall, -⟩ := glmtAux_spec ts none ""
  constructor
  · intro t ht
    rcases hd with ⟨h1, -⟩ | ⟨t', h1, h2, hmem, hmet, hlt⟩
    · rw [getLastMetadataTorrent] at ht
      rw [h1] at ht
      cases ht
    · rw [getLastMetadataTorrent] at ht
      rw [h1] at ht
      obtain rfl := Option.some.inj ht
      refine ⟨hmem, hmet, ?_, ?_⟩
      · intro he
        rw [he] at hlt
        exact absurd hlt (by decide)
      · intro u hu hmu
        have := hall u hu hmu
        rw [h2] at this
        exact this
  · intro hn u hu hmu
    rcases hd with ⟨-, h2⟩ | ⟨t', h1, -, -, -, -⟩
    · have := hall u hu hmu
      rw [h2] at this
      have hle : u.addedToTorrentsListAt.data ≤ [] := this
      have hdata : u.addedToTorrentsListAt.data = [] := le_antisymm hle List.nil_le
      exact String.toList_inj.mp hdata
    · rw [getLastMetadataTorrent, h1] at hn
      cases hn

def wTorrentA : TorrentsResponse :=
  { displayName := "meta-old", url := "", btih := "a", magnetLink := "m1",
    topLevelGroupName := "other_aa", groupName := "aa_derived_mirror_metadata",
    obsolete := false, addedToTorrentsListAt := "2024-01-01" }

def wTorrentB : TorrentsResponse :=
  { displayName := "meta-new", url := "", btih := "b", magnetLink := "m2",
    topLevelGroupName := "other_aa", groupName := "aa_derived_mirror_metadata",
    obsolete := false, addedToTorrentsListAt := "2024-06-01" }

def wTorrentC : TorrentsResponse :=
  { displayName := "books", url := "", btih := "c", magnetLink := "m3",
    topLevelGroupName := "books", groupName := "zlib", obsolete := false,
    addedToTorrentsListAt := "2024-12-31" }

def wCatalog : List TorrentsResponse := [wTorrentA, wTorrentB, wTorrentC]

/-- Witness for C6 (amended): on a concrete catalog the newest
filtered entry is returned and dominates the older one; on the
empty-date catalog the `nil` case certifies the empty added-at
string. -/
theorem c6_get_last_metadata_amended_witness :
    (wTorrentB ∈ wCatalog ∧ isMetadataTorrent wTorrentB = true ∧
      wTorrentB.addedToTorrentsListAt ≠ "" ∧
      wTorrentA.addedToTorrentsListAt.data ≤ wTorrentB.addedToTorrentsListAt.data) ∧
    emptyDateTorrent.addedToTorrentsListAt = "" := by
  constructor
  · have h := (c6_get_last_metadata_amended wCatalog).1 wTorrentB (by decide)
    exact ⟨h.1, h.2.1, h.2.2.1, h.2.2.2 wTorrentA (by decide) (by decide)⟩
  · exact (c6_get_last_metadata_amended [emptyDateTorrent]).2 (by decide)
      emptyDateTorrent (by decide) (by decide)

/-! ## The shard processing loop (`processFileWhileDownloading`,
`pkg/anna/download.go` lines 216–253)

The buffered reader is modelled as the sequence of outcomes of
successive `ReadString('\n')` calls: complete lines, then one
terminating condition.  (When Go returns data together with an error
the code discards the data, so the either/or shape loses nothing.)
JSON decoding is an abstract parameter `parse`; a `none` result is
the per-line parse failure that the code logs and skips.  The records
handed to `processor.Record` are accumulated in call order. -/

inductive ReadErr
  | eof
  | unexpectedEof
  | otherErr (msg : String)
  deriving Repr, DecidableEq

inductive ReadResult
  | line (s : String)
  | fail (e : ReadErr)
  deriving Repr, DecidableEq

/-- Go's `FileResult` (the constant `FilePath` field is omitted).  On
the error return the code never assigns `RecordCount`, so it stays 0. -/
structure FileResultM where
  recordCount : Nat
  error : Option String
  deriving Repr, DecidableEq

/-- A worker run: the records passed to the sink plus the returned
`FileResult`. -/
structure WorkerRun where
  emitted : List AnnaRecord
  result : FileResultM
  deriving Repr, DecidableEq

/-- The `for { line, err := bufReader.ReadString('\n') … }` loop,
with the running record count, line count and emitted-record
accumulator. -/
def processLoop (parse : String → Option AnnaRecord) :
    List ReadResult → Nat → Nat → List AnnaRecord → WorkerRun
  | [], rc, _, acc => ⟨acc.reverse, rc, none⟩
  | .line s :: rest, rc, lc, acc =>
    match parse s with
    | none => processLoop parse rest rc (lc + 1) acc
    | some r => processLoop parse rest (rc + 1) (lc + 1) (r :: acc)
  | .fail .eof :: _, rc, _, acc => ⟨acc.reverse, rc, none⟩
  | .fail .unexpectedEof :: _, rc, _, acc => ⟨acc.reverse, rc, none⟩
  | .fail (.otherErr m) :: _, _, _, acc => ⟨acc.reverse, 0, some m⟩

/-- A worker over one shard stream. -/
def processFileWhileDownloading (parse : String → Option AnnaRecord)
    (stream : List ReadResult) : WorkerRun :=
  processLoop parse stream 0 0 []

/-- C7: within a shard worker, an unparseable line is skipped without
aborting and without touching the record count; a parsed line hands
the record to the sink and increments the count; `unexpected EOF`
ends the loop exactly like clean EOF — the accumulated count is
returned with no error; and over any block of lines followed by an
(unexpected) EOF the returned count is the number of parseable lines. -/
theorem c7_shard_line_handling :
    (∀ (parse : String → Option AnnaRecord) (s : String) (rest : List ReadResult)
        (rc lc : Nat) (acc : List AnnaRecord), parse s = none →
      processLoop parse (.line s :: rest) rc lc acc =
        processLoop parse rest rc (lc + 1) acc) ∧
    (∀ (parse : String → Option AnnaRecord) (s : String) (r : AnnaRecord)
        (rest : List ReadResult) (rc lc : Nat) (acc : List AnnaRecord),
        parse s = some r →
      processLoop parse (.line s :: rest) rc lc acc =
        processLoop parse rest (rc + 1) (lc + 1) (r :: acc)) ∧
    (∀ (parse : String → Option AnnaRecord) (rest rest2 : List ReadResult)
        (rc lc lc2 : Nat) (acc : List AnnaRecord),
      processLoop parse (.fail .unexpectedEof :: rest) rc lc acc =
        ⟨acc.reverse, rc, none⟩ ∧
      processLoop parse (.fail .unexpectedEof :: rest) rc lc acc =
        processLoop parse (.fail .eof :: rest2) rc lc2 acc) ∧
    (∀ (parse : String → Option AnnaRecord) (lines : List String)
        (rest : List ReadResult) (rc lc : Nat) (acc : List AnnaRecord),
      (processLoop parse (lines.map .line ++ .fail .unexpectedEof :: rest)
          rc lc acc).result =
        ⟨rc + (lines.filter (fun s => (parse s).isSome)).length, none⟩) := by
  refine ⟨?_, ?_, ?_, ?_⟩
  · intro parse s rest rc lc acc h
    simp [processLoop, h]
  · intro parse s r rest rc lc acc h
    simp [processLoop, h]
  · intro parse rest rest2 rc lc lc2 acc
    exact ⟨rfl, rfl⟩
  · intro parse lines
    induction lines with
    | nil =>
      intro rest rc lc acc
      simp [processLoop]
    | cons s ls ih =>
      intro rest rc lc acc
      cases hp : parse s with
      | none =>
        simp only [List.map_cons, List.cons_append, processLoop, hp]
        simp only [List.append_eq]
        rw [ih rest rc (lc + 1) acc]
        simp [List.filter_cons, hp]
      | some r =>
        simp only [List.map_cons, List.cons_append, processLoop, hp]
        simp only [List.append_eq]
        rw [ih rest (rc + 1) (lc + 1) (r :: acc)]
        simp only [List.filter_cons, hp, Option.isSome_some, if_true]
        congr 1
        simp
        omega

/-- A concrete parser for witnesses: `"ok"` parses, all else fails. -/
def wParse : String → Option AnnaRecord :=
  fun s => if s = "ok" then some wEpubRecord else none

/-- Witness for C7 at concrete streams. -/
theorem c7_shard_line_handling_witness :
    processLoop wParse [.line "bad", .fail .unexpectedEof] 0 0 [] =
      processLoop wParse [.fail .unexpectedEof] 0 1 [] ∧
    processLoop wParse [.line "ok", .fail .eof] 0 0 [] =
      processLoop wParse [.fail .eof] 1 1 [wEpubRecord] ∧
    processLoop wParse [.fail .unexpectedEof] 3 5 [wEpubRecord] =
      ⟨[wEpubRecord], 3, none⟩ ∧
    (processFileWhileDownloading wParse
        [.line "ok", .line "bad", .line "ok", .fail .unexpectedEof]).result =
      ⟨2, none⟩ := by
  refine ⟨?_, ?_, ?_, ?_⟩
  · exact c7_shard_line_handling.1 wParse "bad" [.fail .unexpectedEof] 0 0 [] (by decide)
  · exact c7_shard_line_handling.2.1 wParse "ok" wEpubRecord [.fail .eof] 0 0 [] (by decide)
  · exact ((c7_shard_line_handling.2.2.1 wParse [] [] 3 5 5 [wEpubRecord]).1).trans (by decide)
  · exact (c7_shard_line_handling.2.2.2 wParse ["ok", "bad", "ok"] [] 0 0 []).trans (by decide)

/-! ## Shard selection pattern and `ExtractFileIndex`
(`pkg/anna/download.go` lines 26–40 and 101–146)

`filePattern = elasticsearch/aarecords__\d+\.json\.gz$` and
`digitPattern = aarecords__(\d+)\.json\.gz$` are end-anchored with a
fixed literal before and after the digit group, so a match exists iff
the string ends in `<lit><digits><.json.gz>` with a nonempty digit
run, and the captured group is the maximal digit run (it is bounded
on the left by `_`, a non-digit).  `matchShardTail lit s` returns
that digit run. -/

def jsonGzList : List Char := ".json.gz".toList

def digitPatternLit : List Char := "aarecords__".toList

def shardPatternLit : List Char := "elasticsearch/aarecords__".toList

/-- Match `<anything><lit><digits+>.json.gz` at the end of `s`;
return the digit group. -/
def matchShardTail (lit : List Char) (s : List Char) : Option (List Char) :=
  if jsonGzList.reverse.isPrefixOf s.reverse then
    if (s.reverse.drop jsonGzList.length).takeWhile Char.isDigit ≠ [] ∧
        lit.reverse.isPrefixOf ((s.reverse.drop jsonGzList.length).dropWhile Char.isDigit) then
      some ((s.reverse.drop jsonGzList.length).takeWhile Char.isDigit).reverse
    else none
  else none

/-- `filePattern.MatchString` with `ANNA_ARCHIVE_ID` unset. -/
def matchesShardPattern (p : String) : Bool :=
  (matchShardTail shardPatternLit p.toList).isSome

/-- `fmt.Sscanf(ds, "%d", &index)` on the captured (all-digit) group:
the decimal value, failing with `ErrRange` beyond the signed 64-bit
range (`int` is 64-bit on the target). -/
def sscanfDecimal (ds : List Char) : Option Int :=
  if ds ≠ [] ∧ ds.all Char.isDigit then
    if ((ds.foldl (fun a c => a * 10 + digitVal c) 0 : Nat) : Int) ≤ int64Max then
      some ((ds.foldl (fun a c => a * 10 + digitVal c) 0 : Nat) : Int)
    else none
  else none

/-- `ExtractFileIndex`: apply `digitPattern`, then scan the captured
group as a decimal integer. -/
def extractFileIndex (path : String) : Option Int :=
  match matchShardTail digitPatternLit path.toList with
  | none => none
  | some ds => sscanfDecimal ds

/-- Go `path.Base`: `"."` for the empty path, trailing slashes
stripped, `"/"` when nothing remains, else the last component. -/
def pathBase (p : String) : String :=
  if p = "" then "."
  else if p.toList.reverse.dropWhile (fun c => c = '/') = [] then "/"
  else String.mk (((p.toList.reverse.dropWhile (fun c => c = '/')).takeWhile
    (fun c => c ≠ '/')).reverse)

theorem takeWhile_append_of_all {p : Char → Bool} (l1 l2 : List Char)
    (h : ∀ c ∈ l1, p c = true) :
    (l1 ++ l2).takeWhile p = l1 ++ l2.takeWhile p := by
  induction l1 with
  | nil => rfl
  | cons a l ih =>
    simp only [List.cons_append, List.takeWhile_cons, h a (List.mem_cons_self a l), if_true]
    rw [ih (fun c hc => h c (List.mem_cons_of_mem a hc))]

theorem dropWhile_append_of_all {p : Char → Bool} (l1 l2 : List Char)
    (h : ∀ c ∈ l1, p c = true) :
    (l1 ++ l2).dropWhile p = l2.dropWhile p := by
  induction l1 with
  | nil => rfl
  | cons a l ih =>
    simp only [List.cons_append, List.dropWhile_cons, h a (List.mem_cons_self a l), if_true]
    exact ih (fun c hc => h c (List.mem_cons_of_mem a hc))

theorem takeWhile_cons_neg {p : Char → Bool} (a : Char) (l : List Char)
    (h : p a = false) : (a :: l).takeWhile p = [] := by
  simp [List.takeWhile_cons, h]

theorem dropWhile_cons_neg {p : Char → Bool} (a : Char) (l : List Char)
    (h : p a = false) : (a :: l).dropWhile p = a :: l := by
  simp [List.dropWhile_cons, h]

/-- Decompose a successful tail match: the string is
`pre ++ lit ++ ds ++ ".json.gz"` with `ds` a nonempty digit run. -/
theorem matchShardTail_eq_some (lit s ds : List Char)
    (h : matchShardTail lit s = some ds) :
    ∃ pre, s = pre ++ lit ++ ds ++ jsonGzList ∧ ds ≠ [] ∧ ds.all Char.isDigit = true := by
  unfold matchShardTail at h
  split at h
  case isFalse => cases h
  case isTrue h1 =>
    split at h
    case isFalse => cases h
    case isTrue h2 =>
      obtain ⟨hne, hpref⟩ := h2
      obtain ⟨t, ht⟩ := List.isPrefixOf_iff_prefix.mp h1
      have hlenrev : jsonGzList.reverse.length = jsonGzList.length := List.length_reverse _
      have hdrop : s.reverse.drop jsonGzList.length = t := by
        rw [← ht, ← hlenrev, List.drop_left]
      rw [hdrop] at h hne hpref
      obtain ⟨u, hu⟩ := List.isPrefixOf_iff_prefix.mp hpref
      have hds : ds = (t.takeWhile Char.isDigit).reverse := (Option.some.inj h).symm
      refine ⟨u.reverse, ?_, ?_, ?_⟩
      · have ht2 : t.takeWhile Char.isDigit ++ (lit.reverse ++ u) = t := by
          rw [hu]
          exact List.takeWhile_append_dropWhile Char.isDigit t
        have hsrev : s.reverse = jsonGzList.reverse ++
            (t.takeWhile Char.isDigit ++ (lit.reverse ++ u)) := by
          rw [ht2]
          exact ht.symm
        have hfin := congrArg List.reverse hsrev
        rw [List.reverse_reverse] at hfin
        rw [hfin, hds]
        simp [List.reverse_append]
      · rw [hds]
        simp only [ne_eq, List.reverse_eq_nil_iff]
        exact hne
      · rw [hds, List.all_eq_true]
        intro c hc
        exact List.mem_takeWhile_imp (List.mem_reverse.mp hc)

/-- Compute a tail match on a string of the decomposed shape, when
the literal ends in a non-digit. -/
theorem matchShardTail_of_decomp (lit pre ds : List Char) (c0 : Char)
    (litRevRest : List Char) (hrev : lit.reverse = c0 :: litRevRest)
    (hc0 : c0.isDigit = false) (hds : ds ≠ []) (hdig : ds.all Char.isDigit = true) :
    matchShardTail lit (pre ++ lit ++ ds ++ jsonGzList) = some ds := by
  have hdigrev : ∀ c ∈ ds.reverse, Char.isDigit c = true := by
    intro c hc
    exact List.all_eq_true.mp hdig c (List.mem_reverse.mp hc)
  have hsrev : (pre ++ lit ++ ds ++ jsonGzList).reverse =
      jsonGzList.reverse ++ (ds.reverse ++ (lit.reverse ++ pre.reverse)) := by
    simp [List.reverse_append]
  have htake : (ds.reverse ++ (lit.reverse ++ pre.reverse)).takeWhile Char.isDigit =
      ds.reverse := by
    rw [takeWhile_append_of_all _ _ hdigrev, hrev, List.cons_append,
      takeWhile_cons_neg _ _ hc0, List.append_nil]
  have hdropw : (ds.reverse ++ (lit.reverse ++ pre.reverse)).dropWhile Char.isDigit =
      lit.reverse ++ pre.reverse := by
    rw [dropWhile_append_of_all _ _ hdigrev, hrev, List.cons_append,
      dropWhile_cons_neg _ _ hc0, ← List.cons_append, ← hrev]
  unfold matchShardTail
  rw [hsrev]
  have hlenrev : jsonGzList.reverse.length = jsonGzList.length := List.length_reverse _
  have hdrop : (jsonGzList.reverse ++ (ds.reverse ++ (lit.reverse ++ pre.reverse))).drop
      jsonGzList.length = ds.reverse ++ (lit.reverse ++ pre.reverse) := by
    rw [← hlenrev, List.drop_left]
  rw [if_pos (List.isPrefixOf_iff_prefix.mpr ⟨_, rfl⟩), hdrop, htake, hdropw]
  rw [if_pos ⟨by simpa using hds, List.isPrefixOf_iff_prefix.mpr ⟨_, rfl⟩⟩]
  rw [List.reverse_reverse]

theorem digit_ne_slash (c : Char) (h : c.isDigit = true) :
    (decide (c ≠ '/')) = true := by
  refine decide_eq_true ?_
  intro he
  rw [he] at h
  simp at h

/-- `path.Base` of a path of the matched shape is
`aarecords__<ds>.json.gz`. -/
theorem pathBase_decomp (pre ds : List Char) (hdig : ds.all Char.isDigit = true) :
    pathBase (String.mk (pre ++ shardPatternLit ++ ds ++ jsonGzList)) =
      String.mk (digitPatternLit ++ ds ++ jsonGzList) := by
  have h8 : jsonGzList.length = 8 := by decide
  have hne : String.mk (pre ++ shardPatternLit ++ ds ++ jsonGzList) ≠ "" := by
    intro h
    have hl := congrArg (fun s => s.toList.length) h
    simp only [show (String.mk (pre ++ shardPatternLit ++ ds ++ jsonGzList)).toList =
        pre ++ shardPatternLit ++ ds ++ jsonGzList from rfl,
      show ("" : String).toList = [] from rfl, List.length_append, List.length_nil] at hl
    rw [h8] at hl
    omega
  have hlit : shardPatternLit = "elasticsearch".toList ++ '/' :: digitPatternLit := by
    decide
  have hrevL : (pre ++ shardPatternLit ++ ds ++ jsonGzList).reverse =
      jsonGzList.reverse ++ (ds.reverse ++ (digitPatternLit.reverse ++
        ('/' :: ("elasticsearch".toList.reverse ++ pre.reverse)))) := by
    rw [hlit]
    simp [List.reverse_append, List.append_assoc]
  have hjz : jsonGzList.reverse = 'z' :: "g.nosj.".toList := by decide
  have hdigrev : ∀ c ∈ ds.reverse, (decide (c ≠ '/')) = true := by
    intro c hc
    exact digit_ne_slash c (List.all_eq_true.mp hdig c (List.mem_reverse.mp hc))
  have hdw : (pre ++ shardPatternLit ++ ds ++ jsonGzList).reverse.dropWhile
      (fun c => c = '/') = (pre ++ shardPatternLit ++ ds ++ jsonGzList).reverse := by
    rw [hrevL, hjz, List.cons_append, dropWhile_cons_neg _ _ (by decide), ← List.cons_append,
      ← hjz, ← hrevL]
  have htw : (pre ++ shardPatternLit ++ ds ++ jsonGzList).reverse.takeWhile
      (fun c => c ≠ '/') =
      jsonGzList.reverse ++ (ds.reverse ++ digitPatternLit.reverse) := by
    rw [hrevL, takeWhile_append_of_all _ _ (by decide),
      takeWhile_append_of_all _ _ hdigrev,
      takeWhile_append_of_all _ _ (by decide),
      takeWhile_cons_neg _ _ (by decide), List.append_nil]
  unfold pathBase
  rw [if_neg hne]
  rw [show (String.mk (pre ++ shardPatternLit ++ ds ++ jsonGzList)).toList =
    pre ++ shardPatternLit ++ ds ++ jsonGzList from rfl]
  rw [hdw]
  rw [if_neg (by rw [hrevL, hjz]; simp)]
  rw [htw]
  refine congrArg String.mk ?_
  simp [List.reverse_append, List.append_assoc]

/-- C10 as stated is false at the 64-bit boundary: the path
`elasticsearch/aarecords__9223372036854775808.json.gz` is matched by
the default shard-selection pattern, yet `ExtractFileIndex` on its
base name fails (`fmt.Sscanf` with `%d` overflows the 64-bit `int`),
so the `panic(err)` guarding index extraction in
`DownloadAndProcessRecords` is reachable in the default
configuration. -/
theorem c10_extract_index_counterexample :
    matchesShardPattern "elasticsearch/aarecords__9223372036854775808.json.gz" = true ∧
    extractFileIndex
      (pathBase "elasticsearch/aarecords__9223372036854775808.json.gz") = none := by
  exact ⟨by decide, by decide⟩

/-- C10 amended: for every path matched by the default shard pattern
whose digit group denotes a value within the signed 64-bit range (in
particular every realistic shard index), `ExtractFileIndex` on the
path's base name succeeds with exactly that decimal value — so for
such paths the panic is unreachable; only digit groups beyond
`2^63 - 1` (which `Sscanf` rejects) can trigger it. -/
theorem c10_extract_index_amended (p : String) (ds : List Char)
    (h : matchShardTail shardPatternLit p.toList = some ds)
    (hb : ((ds.foldl (fun a c => a * 10 + digitVal c) 0 : Nat) : Int) ≤ int64Max) :
    matchesShardPattern p = true ∧
    extractFileIndex (pathBase p) =
      some ((ds.foldl (fun a c => a * 10 + digitVal c) 0 : Nat) : Int) := by
  obtain ⟨pre, hs, hds, hdig⟩ := matchShardTail_eq_some _ _ _ h
  have hp : p = String.mk (pre ++ shardPatternLit ++ ds ++ jsonGzList) :=
    String.toList_inj.mp hs
  constructor
  · unfold matchesShardPattern
    rw [h]
    rfl
  · rw [hp, pathBase_decomp pre ds hdig]
    unfold extractFileIndex
    have hm : matchShardTail digitPatternLit
        (String.mk (digitPatternLit ++ ds ++ jsonGzList)).toList = some ds := by
      rw [show (String.mk (digitPatternLit ++ ds ++ jsonGzList)).toList =
        [] ++ digitPatternLit ++ ds ++ jsonGzList by simp]
      exact matchShardTail_of_decomp digitPatternLit [] ds '_'
        "_sdroceraa".toList (by decide) (by decide) hds hdig
    rw [hm]
    show sscanfDecimal ds = _
    unfold sscanfDecimal
    rw [if_pos ⟨hds, hdig⟩, if_pos hb]

/-- Witness for C10 (amended) at the canonical shard path. -/
theorem c10_extract_index_amended_witness :
    matchesShardPattern "elasticsearch/aarecords__7.json.gz" = true ∧
    extractFileIndex (pathBase "elasticsearch/aarecords__7.json.gz") = some 7 := by
  have h := c10_extract_index_amended "elasticsearch/aarecords__7.json.gz" ['7']
    (by decide) (by decide)
  exact ⟨h.1, h.2.trans (by decide)⟩

/-! ## `DownloadAndProcessRecords` aggregation and the sync
orchestrator (`pkg/anna/download.go` lines 92–185, `pkg/sync/index.go`
lines 177–257, progress registry `EndSync`)

Per-worker streams are injected; `AddMagnet` failure is an injected
outcome.  The goroutine wrapper in `DownloadAndProcessRecords` panics
(`panic(e)`, download.go:152) when its worker's `FileResult` carries
an error; an unrecovered panic in a goroutine terminates the process,
modelled as the distinguished outcome `panicked`.  Which erroring
worker panics first is scheduler-dependent; the model picks the first
in stream order. -/

inductive DapOutcome
  | err (msg : String)
  | noFiles
  | panicked (msg : String)
  | ok (results : List WorkerRun)
  deriving Repr, DecidableEq

def downloadAndProcessRecords (parse : String → Option AnnaRecord)
    (addMagnetErr : Option String) (shards : List (List ReadResult)) : DapOutcome :=
  match addMagnetErr with
  | some m => .err m
  | none =>
    if shards.isEmpty then .noFiles
    else
      match (shards.map (processFileWhileDownloading parse)).find?
          (fun r => r.result.error.isSome) with
      | some r => .panicked (r.result.error.getD "")
      | none => .ok (shards.map (processFileWhileDownloading parse))

/-- A `Synchronization` row (the `date` primary key is the append
position in the trace). -/
structure SyncRow where
  base : String
  complete : Bool
  deriving Repr, DecidableEq

/-- The progress registry state (`SyncStats`; the two per-file float
percentages are out of scope — `EndSync` discards the file list
wholesale). -/
structure SyncStatsState where
  isRunning : Bool
  base : String
  fileNames : List String
  deriving Repr, DecidableEq

/-- `EndSync`: reset the registry and call
`database.ComputeAndCacheStats(true)`; the returned flag is the
`force` argument of that call. -/
def endSync (_s : SyncStatsState) : SyncStatsState × Bool :=
  (⟨false, "", []⟩, true)

/-- `lastSync != nil && lastSync.Base == t.DisplayName`. -/
def syncAlreadyPerformed (lastSync : Option SyncRow) (t : TorrentsResponse) : Bool :=
  match lastSync with
  | some ls => ls.base = t.displayName
  | none => false

inductive SyncOutcome
  | dbError
  | fetchError (msg : String)
  | noTorrent
  | blockedForever
  | skipped
  | ingestError (msg : String)
  | processTerminated
  | completed
  deriving Repr, DecidableEq

/-- What one `Sync` attempt did: the `force` flags of the stats
recomputes triggered through `EndSync` (one entry per `EndSync`
call), the `Synchronization` rows appended, and how the attempt
ended. -/
structure SyncTrace where
  statsForceFlags : List Bool
  rowsWritten : List SyncRow
  outcome : SyncOutcome
  deriving Repr, DecidableEq

/-- External outcomes injected into one `Sync` call. -/
structure SyncEnv where
  /-- `GetLastSync` failed with a non-`RecordNotFound` error. -/
  lastSyncDbError : Bool
  lastSync : Option SyncRow
  fetch : Except String (List TorrentsResponse)
  /-- `ANNA_DISABLE_SYNC == "true"`. -/
  disableSync : Bool
  addMagnetErr : Option String
  shards : List (List ReadResult)

/-- `Sync(ctx)` (pkg/sync/index.go lines 177–257).  `UpsertTorrents`
failures are logged and do not change control flow; database write
errors on the `Synchronization` rows are external and assumed away.
The `ANNA_DISABLE_SYNC` branch loops forever and never returns. -/
def syncModel (parse : String → Option AnnaRecord) (env : SyncEnv) : SyncTrace :=
  if env.lastSyncDbError then ⟨[], [], .dbError⟩
  else
    match env.fetch with
    | .error m => ⟨[], [], .fetchError m⟩
    | .ok catalog =>
      match getLastMetadataTorrent catalog with
      | none => ⟨[], [], .noTorrent⟩
      | some t =>
        if env.disableSync then ⟨[], [], .blockedForever⟩
        else if syncAlreadyPerformed env.lastSync t then
          ⟨[(endSync ⟨true, t.displayName, []⟩).2],
            [⟨t.displayName, false⟩], .skipped⟩
        else
          match downloadAndProcessRecords parse env.addMagnetErr env.shards with
          | .err m => ⟨[(endSync ⟨true, t.displayName, []⟩).2], [], .ingestError m⟩
          | .panicked _ => ⟨[], [], .processTerminated⟩
          | .noFiles =>
            ⟨[(endSync ⟨true, t.displayName, []⟩).2],
              [⟨t.displayName, true⟩], .completed⟩
          | .ok results =>
            match results.find? (fun r => r.result.error.isSome) with
            | some r =>
              ⟨[(endSync ⟨true, t.displayName, []⟩).2], [],
                .ingestError (r.result.error.getD "")⟩
            | none =>
              ⟨[(endSync ⟨true, t.displayName, []⟩).2],
                [⟨t.displayName, true⟩], .completed⟩

def c3Env : SyncEnv :=
  { lastSyncDbError := false, lastSync := none, fetch := .ok wCatalog,
    disableSync := false, addMagnetErr := none,
    shards := [[.fail (.otherErr "mid-stream read failure")]] }

/-- C3 as stated is false: on a mid-stream I/O error distinct from
EOF the worker does return a `FileResult` carrying the fatal error,
but the goroutine wrapper in `DownloadAndProcessRecords` panics on
it, terminating the process — the error never propagates to `Sync`
as a value and the orchestrator never logs it or ends the attempt
normally.  (No `complete=true` row is written, but only because the
process dies.) -/
theorem c3_shard_error_counterexample :
    (processFileWhileDownloading wParse
        [.fail (.otherErr "mid-stream read failure")]).result.error =
      some "mid-stream read failure" ∧
    downloadAndProcessRecords wParse none
        [[.fail (.otherErr "mid-stream read failure")]] =
      .panicked "mid-stream read failure" ∧
    syncModel wParse c3Env = ⟨[], [], .processTerminated⟩ := by
  exact ⟨by decide, by decide, by decide⟩

/-- C3 amended: when any shard worker hits a mid-stream I/O error
distinct from (unexpected) EOF, the worker returns a fatal
`FileResult.Error`, but `DownloadAndProcessRecords` panics on it and
the process terminates: `Sync` never receives the error, `EndSync` is
not called, and no `Synchronization` row (in particular none with
`complete=true`) is recorded for the attempt. -/
theorem c3_shard_error_amended (parse : String → Option AnnaRecord) (env : SyncEnv)
    (catalog : List TorrentsResponse) (t : TorrentsResponse)
    (i : Nat) (hi : i < env.shards.length) (m : String)
    (hdb : env.lastSyncDbError = false)
    (hf : env.fetch = .ok catalog)
    (ht : getLastMetadataTorrent catalog = some t)
    (hdis : env.disableSync = false)
    (hskip : syncAlreadyPerformed env.lastSync t = false)
    (hmag : env.addMagnetErr = none)
    (herr : (processFileWhileDownloading parse env.shards[i]).result.error = some m) :
    (∃ m2, downloadAndProcessRecords parse env.addMagnetErr env.shards = .panicked m2) ∧
    syncModel parse env = ⟨[], [], .processTerminated⟩ := by
  have hne : env.shards ≠ [] := by
    intro h0
    rw [h0] at hi
    simp at hi
  have hisE : env.shards.isEmpty = false := by
    cases hsh : env.shards with
    | nil => exact absurd hsh hne
    | cons a l => rfl
  have hmem : processFileWhileDownloading parse env.shards[i] ∈
      env.shards.map (processFileWhileDownloading parse) :=
    List.mem_map.mpr ⟨env.shards[i], List.getElem_mem hi, rfl⟩
  have hsome : ((env.shards.map (processFileWhileDownloading parse)).find?
      (fun r => r.result.error.isSome)).isSome := by
    rw [List.find?_isSome]
    exact ⟨_, hmem, by rw [herr]; rfl⟩
  obtain ⟨r, hr⟩ := Option.isSome_iff_exists.mp hsome
  have hdap : downloadAndProcessRecords parse env.addMagnetErr env.shards =
      .panicked (r.result.error.getD "") := by
    rw [hmag]
    simp only [downloadAndProcessRecords]
    simp [hisE, hr]
  refine ⟨⟨r.result.error.getD "", hdap⟩, ?_⟩
  unfold syncModel
  rw [if_neg (by rw [hdb]; exact Bool.false_ne_true)]
  rw [hf]
  simp only [ht]
  rw [if_neg (by rw [hdis]; exact Bool.false_ne_true)]
  rw [if_neg (by rw [hskip]; exact Bool.false_ne_true)]
  rw [hdap]

def c3EnvW : SyncEnv :=
  { lastSyncDbError := false, lastSync := some ⟨"meta-old", true⟩,
    fetch := .ok wCatalog, disableSync := false, addMagnetErr := none,
    shards := [[.line "ok", .fail .eof], [.line "ok", .fail (.otherErr "disk gone")]] }

/-- Witness for C3 (amended) on a concrete two-shard run whose second
shard fails mid-stream. -/
theorem c3_shard_error_amended_witness :
    (∃ m2, downloadAndProcessRecords wParse none c3EnvW.shards = .panicked m2) ∧
    syncModel wParse c3EnvW = ⟨[], [], .processTerminated⟩ := by
  have h := c3_shard_error_amended wParse c3EnvW wCatalog wTorrentB 1 (by decide)
    "disk gone" rfl rfl (by decide) rfl (by decide) rfl (by decide)
  exact h

def c5Env : SyncEnv :=
  { lastSyncDbError := false, lastSync := none, fetch := .error "network down",
    disableSync := false, addMagnetErr := none, shards := [] }

/-- C5 as stated is false: when the catalog fetch fails, `Sync`
returns the error immediately without calling `EndSync`, so no forced
stats recompute is triggered on that failure path (the same holds for
a `GetLastSync` database error and for the no-metadata-torrent
case). -/
theorem c5_endsync_counterexample :
    (syncModel wParse c5Env).outcome = .fetchError "network down" ∧
    (syncModel wParse c5Env).statsForceFlags = [] := by
  exact ⟨by decide, by decide⟩

/-- C5 amended: `EndSync` always resets the registry and triggers a
forced (`force=true`) stats recompute, and `Sync` calls it exactly
once on the skip path, on every ingestion failure that returns as a
value, and on success — but not when the initial last-sync lookup,
the catalog fetch, or the metadata-torrent selection fails, not on
the never-returning `ANNA_DISABLE_SYNC` block, and not when a shard
error panics the process. -/
theorem c5_endsync_amended (parse : String → Option AnnaRecord) (env : SyncEnv) :
    (∀ s : SyncStatsState, endSync s = (⟨false, "", []⟩, true)) ∧
    (∀ b ∈ (syncModel parse env).statsForceFlags, b = true) ∧
    ((syncModel parse env).statsForceFlags = [true] ↔
      ((syncModel parse env).outcome = .skipped ∨
       (∃ m, (syncModel parse env).outcome = .ingestError m) ∨
       (syncModel parse env).outcome = .completed)) ∧
    ((syncModel parse env).statsForceFlags = [] ↔
      ¬ ((syncModel parse env).outcome = .skipped ∨
         (∃ m, (syncModel parse env).outcome = .ingestError m) ∨
         (syncModel parse env).outcome = .completed)) := by
  have hmaster :
      ((syncModel parse env).statsForceFlags = [true] ∧
        ((syncModel parse env).outcome = .skipped ∨
         (∃ m, (syncModel parse env).outcome = .ingestError m) ∨
         (syncModel parse env).outcome = .completed)) ∨
      ((syncModel parse env).statsForceFlags = [] ∧
        ¬ ((syncModel parse env).outcome = .skipped ∨
           (∃ m, (syncModel parse env).outcome = .ingestError m) ∨
           (syncModel parse env).outcome = .completed)) := by
    unfold syncModel
    split
    · right
      exact ⟨rfl, by rintro (h | ⟨m2, h⟩ | h) <;> exact SyncOutcome.noConfusion h⟩
    · split
      · right
        exact ⟨rfl, by rintro (h | ⟨m2, h⟩ | h) <;> exact SyncOutcome.noConfusion h⟩
      · split
        · right
          exact ⟨rfl, by rintro (h | ⟨m2, h⟩ | h) <;> exact SyncOutcome.noConfusion h⟩
        · split
          · right
            exact ⟨rfl, by rintro (h | ⟨m2, h⟩ | h) <;> exact SyncOutcome.noConfusion h⟩
          · split
            · exact Or.inl ⟨rfl, Or.inl rfl⟩
            · split
              · exact Or.inl ⟨rfl, Or.inr (Or.inl ⟨_, rfl⟩)⟩
              · right
                exact ⟨rfl, by rintro (h | ⟨m2, h⟩ | h) <;> exact SyncOutcome.noConfusion h⟩
              · exact Or.inl ⟨rfl, Or.inr (Or.inr rfl)⟩
              · split
                · exact Or.inl ⟨rfl, Or.inr (Or.inl ⟨_, rfl⟩)⟩
                · exact Or.inl ⟨rfl, Or.inr (Or.inr rfl)⟩
  refine ⟨fun _ => rfl, ?_, ?_, ?_⟩
  · intro b hb
    rcases hmaster with ⟨hfl, -⟩ | ⟨hfl, -⟩ <;> rw [hfl] at hb
    · exact List.mem_singleton.mp hb
    · exact absurd hb (List.not_mem_nil b)
  · constructor
    · intro hfl
      rcases hmaster with ⟨-, ho⟩ | ⟨hfl2, -⟩
      · exact ho
      · rw [hfl] at hfl2
        cases hfl2
    · intro ho
      rcases hmaster with ⟨hfl, -⟩ | ⟨-, hno⟩
      · exact hfl
      · exact absurd ho hno
  · constructor
    · intro hfl
      rcases hmaster with ⟨hfl2, -⟩ | ⟨-, hno⟩
      · rw [hfl] at hfl2
        cases hfl2
      · exact hno
    · intro hno
      rcases hmaster with ⟨-, ho⟩ | ⟨hfl, -⟩
      · exact absurd ho hno
      · exact hfl

def c5SkipEnv : SyncEnv :=
  { lastSyncDbError := false, lastSync := some ⟨"meta-new", true⟩,
    fetch := .ok wCatalog, disableSync := false, addMagnetErr := none, shards := [] }

/-- Witness for C5 (amended): on the concrete skip path `EndSync`
runs exactly once with a forced recompute, and `endSync` itself
resets the registry with `force=true`. -/
theorem c5_endsync_amended_witness :
    endSync ⟨true, "x", ["f"]⟩ = (⟨false, "", []⟩, true) ∧
    (syncModel wParse c5SkipEnv).statsForceFlags = [true] ∧
    (syncModel wParse c5SkipEnv).outcome = .skipped := by
  have h := c5_endsync_amended wParse c5SkipEnv
  refine ⟨h.1 ⟨true, "x", ["f"]⟩, ?_, by decide⟩
  exact h.2.2.1.mpr (Or.inl (by decide))

/-! ## On-demand download tracker (`pkg/anna/epub.go` lines 40–115)

The tracker state is the latest progress event plus the subscriber
channels (buffered, capacity 10).  `Percent` is a float derived from
the two byte counters and is not modelled; no claim mentions it.
Consumers are modelled by an explicit `recv` operation so that "the
channel is full" means the subscriber has not kept up.  `complete`
releases the lock before fanning out, and both `update` and
`complete` send with `select { case ch <- e: default: }` — a
non-blocking send that drops the event when the buffer is full. -/

inductive TrackerStatus
  | notStarted
  | downloading
  | downloaded
  deriving Repr, DecidableEq

structure DownloadProgressEvent where
  status : TrackerStatus
  bytesCompleted : Int
  totalBytes : Int
  deriving Repr, DecidableEq

/-- A subscriber channel: buffered queue (capacity 10) plus the
closed flag. -/
structure Chan where
  queue : List DownloadProgressEvent
  closed : Bool
  deriving Repr, DecidableEq

/-- Non-blocking send: enqueue when the buffer has room, drop the
event otherwise. -/
def trySend (e : DownloadProgressEvent) (ch : Chan) : Chan :=
  if ch.queue.length < 10 then { ch with queue := ch.queue ++ [e] } else ch

structure DownloadTracker where
  progress : DownloadProgressEvent
  subscribers : List Chan
  deriving Repr, DecidableEq

/-- `newDownloadTracker`: status starts at `DOWNLOADING`. -/
def newDownloadTracker : DownloadTracker :=
  { progress := ⟨.downloading, 0, 0⟩, subscribers := [] }

/-- `update`: store the new progress under the lock, then fan out
non-blockingly. -/
def DownloadTracker.update (t : DownloadTracker) (bytesCompleted totalBytes : Int) :
    DownloadTracker :=
  { progress := ⟨.downloading, bytesCompleted, totalBytes⟩,
    subscribers := t.subscribers.map (trySend ⟨.downloading, bytesCompleted, totalBytes⟩) }

/-- `subscribe`: a fresh buffered channel that immediately receives
the current snapshot (a fresh capacity-10 buffer always has room for
the blocking `ch <- t.progress`). -/
def DownloadTracker.subscribe (t : DownloadTracker) : DownloadTracker :=
  { t with subscribers := t.subscribers ++ [⟨[t.progress], false⟩] }

/-- `complete`: set status `DOWNLOADED` under the lock, detach all
subscribers, then (outside the lock) non-blockingly send the final
event to each channel and close it.  Returns the tracker and the
final channel states. -/
def DownloadTracker.complete (t : DownloadTracker) : DownloadTracker × List Chan :=
  ({ progress := { t.progress with status := .downloaded }, subscribers := [] },
    t.subscribers.map (fun ch =>
      { trySend { t.progress with status := .downloaded } ch with closed := true }))

def Chan.recv (ch : Chan) : Chan := { ch with queue := ch.queue.drop 1 }

def modifyAt (i : Nat) (f : Chan → Chan) : List Chan → List Chan
  | [] => []
  | c :: rest =>
    match i with
    | 0 => f c :: rest
    | n + 1 => c :: modifyAt n f rest

/-- The operations possible on a live tracker (before `complete`). -/
inductive TrackerOp
  | update (bytesCompleted totalBytes : Int)
  | subscribe
  | recv (i : Nat)

def applyOp : DownloadTracker → TrackerOp → DownloadTracker
  | t, .update b tot => t.update b tot
  | t, .subscribe => t.subscribe
  | t, .recv i => { t with subscribers := modifyAt i Chan.recv t.subscribers }

def runOps (t : DownloadTracker) (ops : List TrackerOp) : DownloadTracker :=
  ops.foldl applyOp t

/-- Invariant of a live tracker: status `DOWNLOADING`, channels open,
every buffered event `DOWNLOADING`. -/
def LiveInv (t : DownloadTracker) : Prop :=
  t.progress.status = .downloading ∧
  ∀ ch ∈ t.subscribers, ch.closed = false ∧ ∀ e ∈ ch.queue, e.status = .downloading

theorem mem_modifyAt (i : Nat) (f : Chan → Chan) (l : List Chan) (ch : Chan)
    (h : ch ∈ modifyAt i f l) : ch ∈ l ∨ ∃ c ∈ l, ch = f c := by
  induction l generalizing i with
  | nil => simp [modifyAt] at h
  | cons c rest ih =>
    cases i with
    | zero =>
      rcases List.mem_cons.mp h with rfl | hm
      · exact Or.inr ⟨c, List.mem_cons_self c rest, rfl⟩
      · exact Or.inl (List.mem_cons_of_mem c hm)
    | succ n =>
      rcases List.mem_cons.mp h with rfl | hm
      · exact Or.inl (List.mem_cons_self ch rest)
      · rcases ih n hm with hin | ⟨c2, hc2, he⟩
        · exact Or.inl (List.mem_cons_of_mem c hin)
        · exact Or.inr ⟨c2, List.mem_cons_of_mem c hc2, he⟩

theorem liveInv_applyOp (t : DownloadTracker) (op : TrackerOp) (h : LiveInv t) :
    LiveInv (applyOp t op) := by
  obtain ⟨hst, hsub⟩ := h
  cases op with
  | update b tot =>
    refine ⟨rfl, ?_⟩
    intro ch hch
    obtain ⟨ch0, hch0, rfl⟩ := List.mem_map.mp hch
    obtain ⟨hcl, hev⟩ := hsub ch0 hch0
    unfold trySend
    split
    · refine ⟨hcl, ?_⟩
      intro e he
      rcases List.mem_append.mp he with hm | hm
      · exact hev e hm
      · rw [List.mem_singleton.mp hm]
    · exact ⟨hcl, hev⟩
  | subscribe =>
    refine ⟨hst, ?_⟩
    intro ch hch
    rcases List.mem_append.mp hch with hm | hm
    · exact hsub ch hm
    · rw [List.mem_singleton.mp hm]
      refine ⟨rfl, ?_⟩
      intro e he
      rw [List.mem_singleton.mp he]
      exact hst
  | recv i =>
    refine ⟨hst, ?_⟩
    intro ch hch
    rcases mem_modifyAt i Chan.recv t.subscribers ch hch with hm | ⟨c2, hc2, rfl⟩
    · exact hsub ch hm
    · obtain ⟨hcl, hev⟩ := hsub c2 hc2
      exact ⟨hcl, fun e he => hev e (List.mem_of_mem_drop he)⟩

theorem liveInv_runOps (ops : List TrackerOp) :
    ∀ t : DownloadTracker, LiveInv t → LiveInv (runOps t ops) := by
  induction ops with
  | nil => exact fun t h => h
  | cons op rest ih => exact fun t h => ih (applyOp t op) (liveInv_applyOp t op h)

/-- C8 as stated is false: the final `DOWNLOADED` event is sent with
a non-blocking `select … default` *after* the producer's lock is
released, so a subscriber whose capacity-10 buffer is full at
completion (initial snapshot plus nine unconsumed updates, the tenth
update already dropped) misses the terminal event entirely; its
channel is closed without ever holding a `DOWNLOADED` event. -/
theorem c8_tracker_counterexample :
    ((runOps (DownloadTracker.subscribe newDownloadTracker)
        ((List.range 10).map (fun i => TrackerOp.update i 100))).complete).2.map
      (fun ch => (ch.closed, ch.queue.any (fun e => e.status = .downloaded),
        ch.queue.length)) = [(true, false, 10)] := by
  decide

/-- C8 amended: subscribing to a live tracker delivers an immediate
snapshot whose status is `DOWNLOADING`, and while the download is in
flight every buffered event has status `DOWNLOADING` (so any
`DOWNLOADED` event a subscriber sees comes after that snapshot);
`complete` closes every subscriber channel, and the final
`DOWNLOADED` event — sent non-blockingly after the lock is released —
reaches exactly the subscribers whose buffer has room at completion:
a full (capacity 10) buffer drops it. -/
theorem c8_tracker_amended :
    (∀ ops : List TrackerOp, LiveInv (runOps newDownloadTracker ops)) ∧
    (∀ t : DownloadTracker,
      (DownloadTracker.subscribe t).subscribers.getLast? = some ⟨[t.progress], false⟩) ∧
    (∀ (t : DownloadTracker) (i : Nat) (h : i < t.subscribers.length),
      t.subscribers[i].queue.length < 10 →
        (t.complete).2[i]? =
          some ⟨t.subscribers[i].queue ++
            [{ t.progress with status := .downloaded }], true⟩) ∧
    (∀ (t : DownloadTracker) (i : Nat) (h : i < t.subscribers.length),
      ¬ t.subscribers[i].queue.length < 10 →
        (t.complete).2[i]? = some ⟨t.subscribers[i].queue, true⟩) ∧
    (∀ t : DownloadTracker, ∀ ch ∈ (t.complete).2, ch.closed = true) := by
  refine ⟨?_, ?_, ?_, ?_, ?_⟩
  · intro ops
    refine liveInv_runOps ops newDownloadTracker ⟨rfl, ?_⟩
    intro ch hch
    cases hch
  · intro t
    unfold DownloadTracker.subscribe
    exact List.getLast?_concat _
  · intro t i h hroom
    unfold DownloadTracker.complete
    rw [List.getElem?_map, List.getElem?_eq_getElem h]
    simp only [Option.map_some']
    unfold trySend
    rw [if_pos hroom]
  · intro t i h hfull
    unfold DownloadTracker.complete
    rw [List.getElem?_map, List.getElem?_eq_getElem h]
    simp only [Option.map_some']
    unfold trySend
    rw [if_neg hfull]
  · intro t ch hch
    obtain ⟨ch0, _, rfl⟩ := List.mem_map.mp hch
    rfl

/-- A concrete live tracker: one subscriber, one update consumed,
one buffered. -/
def wTracker : DownloadTracker :=
  runOps newDownloadTracker [.subscribe, .update 5 100, .recv 0, .update 50 100]

/-- Witness for C8 (amended): the invariant, the immediate snapshot,
the delivered final event on a channel with room, the dropped final
event on a full channel, and closing, all at concrete states. -/
theorem c8_tracker_amended_witness :
    LiveInv wTracker ∧
    (DownloadTracker.subscribe wTracker).subscribers.getLast? =
      some ⟨[⟨.downloading, 50, 100⟩], false⟩ ∧
    (wTracker.complete).2[0]? =
      some ⟨[⟨.downloading, 5, 100⟩, ⟨.downloading, 50, 100⟩,
        ⟨.downloaded, 50, 100⟩], true⟩ ∧
    ((runOps (DownloadTracker.subscribe newDownloadTracker)
        ((List.range 10).map (fun i => TrackerOp.update i 100))).complete).2[0]? =
      some ⟨(runOps (DownloadTracker.subscribe newDownloadTracker)
        ((List.range 10).map (fun i => TrackerOp.update i 100))).subscribers.headD
          ⟨[], false⟩ |>.queue, true⟩ := by
  refine ⟨?_, ?_, ?_, ?_⟩
  · exact c8_tracker_amended.1 [.subscribe, .update 5 100, .recv 0, .update 50 100]
  · exact (c8_tracker_amended.2.1 wTracker).trans (by decide)
  · exact (c8_tracker_amended.2.2.1 wTracker 0 (by decide) (by decide)).trans (by decide)
  · exact (c8_tracker_amended.2.2.2.1
      (runOps (DownloadTracker.subscribe newDownloadTracker)
        ((List.range 10).map (fun i => TrackerOp.update i 100)))
      0 (by decide) (by decide)).trans (by decide)

end AnnaApi
